import Mathlib

/-!
Verification of the car-scrapers repository (cnb_scraper.py, bat_scraper.py)
against its natural-language specification.

Strings are modelled as `List Char` (`Str`).  Python dictionary values that
appear in scraped records are modelled by `Val` (string, int, or None), and a
record (a Python dict row of the dataset) by an association list `Row` whose
insertion order matches the order of `dict` assignments in the source.
-/

abbrev Str := List Char

/-- A scraped field value: Python `str`, `int`, or `None`. -/
inductive Val where
  | vstr (s : Str)
  | vnat (n : Nat)
  | vnone
deriving DecidableEq, Repr

/-- One record of a dataset: a Python dict, as an association list in
insertion order. -/
abbrev Row := List (Str × Val)

/-- Lookup of a key in a record (`dict.get` / `row["k"]`). -/
def lookupV (k : Str) : Row → Option Val
  | [] => none
  | (k', v) :: r => if k' = k then some v else lookupV k r

/-- Python truthiness of a `Val` (`if value:`). -/
def truthyV : Val → Bool
  | .vstr s => !s.isEmpty
  | .vnat n => n != 0
  | .vnone => false

/-- The `auction_url` cell of a CNB dataframe row (missing column = `none`,
matching a NaN cell for `drop_duplicates` purposes). -/
def keyCnb (r : Row) : Option Val := lookupV "auction_url".data r

/-- `row.get("auction_url")` in the BAT scraper's `save_outputs`. -/
def keyBat (r : Row) : Option Val := lookupV "auction_url".data r

/-- Boolean test that a row's BAT key is exactly `some k`. -/
def keyedBat (k : Val) (r : Row) : Bool := decide (keyBat r = some k)

/-- Boolean test that a row's CNB key cell equals `k`. -/
def keyedCnb (k : Option Val) (r : Row) : Bool := decide (keyCnb r = k)

/-! ### CNB persistence: `pd.concat` + `drop_duplicates(keep='first')` + sort
(cnb_scraper.py, `main`, lines 488-504) -/

/-- Worker for `drop_duplicates(subset=['auction_url'], keep='first')`:
keeps the first row seen for each `auction_url` cell value. -/
def dedupFirstGo (seen : List (Option Val)) : List Row → List Row
  | [] => []
  | r :: rs =>
    if keyCnb r ∈ seen then dedupFirstGo seen rs
    else r :: dedupFirstGo (keyCnb r :: seen) rs

/-- `updated_df.drop_duplicates(subset=['auction_url'], keep='first')`. -/
def dropDuplicatesFirst (l : List Row) : List Row := dedupFirstGo [] l

/-- Sort key for `sort_values('year', ascending=False, na_position='last')`:
a known year sorts by its value, an unknown year ranks below every year. -/
def yearRank (r : Row) : Int :=
  match lookupV "year".data r with
  | some (.vnat n) => (n : Int)
  | _ => -1

/-- Comparator for the descending year sort. -/
def yearGe (a b : Row) : Prop := yearRank b ≤ yearRank a

instance : DecidableRel yearGe := fun a b => Int.decLe (yearRank b) (yearRank a)

/-- The CNB final persist step (cnb_scraper.py lines 494-504): concatenate
existing and new rows, drop duplicate `auction_url`s keeping the first
occurrence, then sort by year descending with unknown years last. -/
def cnbMerge (ex nw : List Row) : List Row :=
  List.insertionSort yearGe (dropDuplicatesFirst (ex ++ nw))

/-- The CNB mid-run checkpoint write (cnb_scraper.py lines 476-479):
`pd.concat([existing_df, pd.DataFrame(new_rows)])` with no deduplication. -/
def cnbCheckpointData (ex nw : List Row) : List Row := ex ++ nw

/-! ### BAT persistence: `save_outputs` (bat_scraper.py lines 479-507) -/

/-- Ordered-dict upsert: replace in place if the key is present (Python dict
assignment preserves first-insertion order), else append. -/
def upsertD (m : List (Val × Row)) (k : Val) (v : Row) : List (Val × Row) :=
  if m.any (fun p => decide (p.1 = k)) then
    m.map (fun p => if p.1 = k then (k, v) else p)
  else m ++ [(k, v)]

/-- Lookup in the ordered dict. -/
def lookupD (k : Val) : List (Val × Row) → Option Row
  | [] => none
  | (k', v) :: m => if k' = k then some v else lookupD k m

/-- The dedup loop of `save_outputs`: `for row in combined: key =
row.get("auction_url"); if key: unique[key] = row`. -/
def batDict : List Row → List (Val × Row) → List (Val × Row)
  | [], m => m
  | r :: rs, m =>
    batDict rs (match keyBat r with
      | some k => if truthyV k then upsertD m k r else m
      | none => m)

/-- `deduped = list(unique.values())`. -/
def batDeduped (combined : List Row) : List Row := (batDict combined []).map (·.2)

/-- `save_outputs`: `combined = existing + new_data` then dedup; the same
`deduped` list is written to both the JSON and the CSV output. -/
def batMerge (existing newData : List Row) : List Row := batDeduped (existing ++ newData)

/-! ### Dict lemmas for `save_outputs` -/

theorem lookupD_append_single (m : List (Val × Row)) (k k' : Val) (v : Row) :
    lookupD k' (m ++ [(k, v)]) =
      (match lookupD k' m with
       | some w => some w
       | none => if k = k' then some v else none) := by
  induction m with
  | nil => simp [lookupD]
  | cons p m ih =>
    by_cases hp : p.1 = k' <;> simp [lookupD, hp, ih]

theorem lookupD_mapReplace (m : List (Val × Row)) (k : Val) (v : Row) (k' : Val) :
    lookupD k' (m.map (fun p => if p.1 = k then (k, v) else p)) =
      (lookupD k' m).map (fun w => if k = k' then v else w) := by
  induction m with
  | nil => simp [lookupD]
  | cons p m ih =>
    rw [List.map_cons]
    by_cases hpk : p.1 = k
    · rw [if_pos hpk]
      by_cases hkk : k = k'
      · rw [lookupD, if_pos hkk, lookupD, if_pos (hpk.trans hkk)]
        simp [hkk]
      · rw [lookupD, if_neg hkk, lookupD, if_neg (fun h => hkk (hpk.symm.trans h)), ih]
    · rw [if_neg hpk]
      by_cases hp' : p.1 = k'
      · have hkk : ¬ (k = k') := fun h => hpk (hp'.trans h.symm)
        rw [lookupD, if_pos hp', lookupD, if_pos hp']
        simp [hkk]
      · rw [lookupD, if_neg hp', lookupD, if_neg hp', ih]

theorem lookupD_eq_none_iff (m : List (Val × Row)) (k : Val) :
    lookupD k m = none ↔ ∀ p ∈ m, p.1 ≠ k := by
  induction m with
  | nil => simp [lookupD]
  | cons p m ih =>
    rw [lookupD]
    by_cases hp : p.1 = k
    · rw [if_pos hp]
      constructor
      · intro h; cases h
      · intro h; exact absurd hp (h p (List.mem_cons_self p m))
    · rw [if_neg hp, ih]
      constructor
      · intro h q hq
        rcases List.mem_cons.mp hq with h1 | h2
        · rw [h1]; exact hp
        · exact h q h2
      · intro h q hq
        exact h q (List.mem_cons_of_mem p hq)

theorem lookupD_upsertD_self (m : List (Val × Row)) (k : Val) (v : Row) :
    lookupD k (upsertD m k v) = some v := by
  unfold upsertD
  by_cases hm : m.any (fun p => decide (p.1 = k)) = true
  · simp only [hm, if_true, lookupD_mapReplace]
    obtain ⟨p, hp, hpk⟩ := List.any_eq_true.mp hm
    have hpk' : p.1 = k := of_decide_eq_true hpk
    cases hlk : lookupD k m with
    | none => exact absurd hpk' ((lookupD_eq_none_iff m k).mp hlk p hp)
    | some w => simp
  · rw [if_neg hm, lookupD_append_single]
    have hnone : lookupD k m = none := by
      rw [lookupD_eq_none_iff]
      intro p hp hpk
      exact hm (List.any_eq_true.mpr ⟨p, hp, by simpa using hpk⟩)
    rw [hnone]
    simp

theorem lookupD_upsertD_ne (m : List (Val × Row)) (k k' : Val) (v : Row)
    (h : k' ≠ k) : lookupD k' (upsertD m k v) = lookupD k' m := by
  have hkk : ¬ (k = k') := fun hh => h hh.symm
  unfold upsertD
  by_cases hm : m.any (fun p => decide (p.1 = k)) = true
  · rw [if_pos hm, lookupD_mapReplace]
    cases lookupD k' m <;> simp [hkk]
  · rw [if_neg hm, lookupD_append_single]
    cases lookupD k' m <;> simp [hkk]

/-- One step of the `save_outputs` dedup loop. -/
def batStep (m : List (Val × Row)) (r : Row) : List (Val × Row) :=
  match keyBat r with
  | some k => if truthyV k then upsertD m k r else m
  | none => m

theorem batStep_of_none (m : List (Val × Row)) (r : Row) (h : keyBat r = none) :
    batStep m r = m := by
  unfold batStep
  rw [h]

theorem batStep_of_some (m : List (Val × Row)) (r : Row) (k : Val)
    (h : keyBat r = some k) :
    batStep m r = if truthyV k then upsertD m k r else m := by
  unfold batStep
  rw [h]

theorem batDict_cons (r : Row) (rs : List Row) (m : List (Val × Row)) :
    batDict (r :: rs) m = batDict rs (batStep m r) := rfl

/-- Every entry of the dict maps a truthy key to a row actually carrying that
key; preserved by the dedup loop. -/
def dictInv (m : List (Val × Row)) : Prop :=
  ∀ p ∈ m, keyBat p.2 = some p.1 ∧ truthyV p.1 = true

theorem dictInv_upsertD (m : List (Val × Row)) (k : Val) (v : Row)
    (hm : dictInv m) (hv : keyBat v = some k) (hk : truthyV k = true) :
    dictInv (upsertD m k v) := by
  intro p hp
  unfold upsertD at hp
  by_cases hany : m.any (fun p => decide (p.1 = k)) = true
  · rw [if_pos hany] at hp
    obtain ⟨q, hq, hqe⟩ := List.mem_map.mp hp
    by_cases hqk : q.1 = k
    · rw [if_pos hqk] at hqe
      rw [← hqe]
      exact ⟨hv, hk⟩
    · rw [if_neg hqk] at hqe
      rw [← hqe]
      exact hm q hq
  · rw [if_neg hany] at hp
    rcases List.mem_append.mp hp with h1 | h2
    · exact hm p h1
    · rcases List.mem_singleton.mp h2 with h
      rw [h]
      exact ⟨hv, hk⟩

theorem dictInv_batStep (m : List (Val × Row)) (r : Row) (hm : dictInv m) :
    dictInv (batStep m r) := by
  cases hkr : keyBat r with
  | none => rw [batStep_of_none m r hkr]; exact hm
  | some k =>
    rw [batStep_of_some m r k hkr]
    by_cases hk : truthyV k = true
    · rw [if_pos hk]; exact dictInv_upsertD m k r hm hkr hk
    · rw [if_neg hk]; exact hm

theorem dictInv_batDict (rs : List Row) (m : List (Val × Row)) (hm : dictInv m) :
    dictInv (batDict rs m) := by
  induction rs generalizing m with
  | nil => exact hm
  | cons r rs ih => rw [batDict_cons]; exact ih _ (dictInv_batStep m r hm)

/-- Keys of the dict stay distinct through an upsert. -/
theorem keysNodup_upsertD (m : List (Val × Row)) (k : Val) (v : Row)
    (hm : (m.map (·.1)).Nodup) : ((upsertD m k v).map (·.1)).Nodup := by
  unfold upsertD
  by_cases hany : m.any (fun p => decide (p.1 = k)) = true
  · rw [if_pos hany]
    have : (m.map (fun p => if p.1 = k then (k, v) else p)).map (·.1) = m.map (·.1) := by
      rw [List.map_map]
      apply List.map_congr_left
      intro p _
      by_cases hpk : p.1 = k
      · simp [hpk]
      · simp [hpk]
    rw [this]
    exact hm
  · rw [if_neg hany, List.map_append]
    rw [List.nodup_append]
    refine ⟨hm, List.nodup_singleton k, ?_⟩
    intro a ha hb
    obtain ⟨p, hp, hpe⟩ := List.mem_map.mp ha
    rcases List.mem_singleton.mp hb with h
    apply hany
    apply List.any_eq_true.mpr
    refine ⟨p, hp, ?_⟩
    have : p.1 = k := by rw [hpe, h]
    simpa using this

theorem keysNodup_batStep (m : List (Val × Row)) (r : Row)
    (hm : (m.map (·.1)).Nodup) : ((batStep m r).map (·.1)).Nodup := by
  cases hkr : keyBat r with
  | none => rw [batStep_of_none m r hkr]; exact hm
  | some k =>
    rw [batStep_of_some m r k hkr]
    by_cases hk : truthyV k = true
    · rw [if_pos hk]; exact keysNodup_upsertD m k r hm
    · rw [if_neg hk]; exact hm

theorem keysNodup_batDict (rs : List Row) (m : List (Val × Row))
    (hm : (m.map (·.1)).Nodup) : ((batDict rs m).map (·.1)).Nodup := by
  induction rs generalizing m with
  | nil => exact hm
  | cons r rs ih => rw [batDict_cons]; exact ih _ (keysNodup_batStep m r hm)

/-- Every row stored in the dict came from the input rows or the initial
dict. -/
theorem mem_batDict (rs : List Row) (m : List (Val × Row)) (p : Val × Row)
    (hp : p ∈ batDict rs m) : p ∈ m ∨ p.2 ∈ rs := by
  induction rs generalizing m with
  | nil => exact Or.inl hp
  | cons r rs ih =>
    rw [batDict_cons] at hp
    rcases ih (batStep m r) hp with h1 | h2
    · have hmem : p ∈ m ∨ p.2 = r := by
        cases hkr : keyBat r with
        | none =>
          rw [batStep_of_none m r hkr] at h1
          exact Or.inl h1
        | some k =>
          rw [batStep_of_some m r k hkr] at h1
          by_cases hk : truthyV k = true
          · rw [if_pos hk] at h1
            unfold upsertD at h1
            by_cases hany : m.any (fun q => decide (q.1 = k)) = true
            · rw [if_pos hany] at h1
              obtain ⟨q, hq, hqe⟩ := List.mem_map.mp h1
              by_cases hqk : q.1 = k
              · rw [if_pos hqk] at hqe
                right
                rw [← hqe]
              · rw [if_neg hqk] at hqe
                exact Or.inl (hqe ▸ hq)
            · rw [if_neg hany] at h1
              rcases List.mem_append.mp h1 with ha | hb
              · exact Or.inl ha
              · rcases List.mem_singleton.mp hb with h
                right
                rw [h]
          · rw [if_neg hk] at h1
            exact Or.inl h1
      rcases hmem with hms | hmr
      · exact Or.inl hms
      · right
        rw [hmr]
        exact List.mem_cons_self r rs
    · exact Or.inr (List.mem_cons_of_mem r h2)

/-- Lookup after the dedup loop: the last row of the input carrying key `k`
wins; if none does, the initial dict's binding remains (`k` truthy). -/
theorem lookupD_batDict (rs : List Row) (k : Val) (hk : truthyV k = true) :
    ∀ m, lookupD k (batDict rs m) =
      rs.foldl (fun a x => if keyBat x = some k then some x else a) (lookupD k m) := by
  induction rs with
  | nil => intro m; rfl
  | cons r rs ih =>
    intro m
    rw [batDict_cons, List.foldl_cons, ih (batStep m r)]
    congr 1
    cases hkr : keyBat r with
    | none =>
      rw [if_neg (fun h => Option.noConfusion h : ¬ ((none : Option Val) = some k))]
      rw [batStep_of_none m r hkr]
    | some k' =>
      by_cases hkk : k' = k
      · subst hkk
        rw [if_pos rfl, batStep_of_some m r k' hkr, if_pos hk, lookupD_upsertD_self]
      · rw [if_neg (fun h => hkk (Option.some.inj h)), batStep_of_some m r k' hkr]
        by_cases ht : truthyV k' = true
        · rw [if_pos ht, lookupD_upsertD_ne m k' k r (fun h => hkk h.symm)]
        · rw [if_neg ht]

/-- In a dict satisfying the invariant with distinct keys, filtering the
values by key `k` recovers exactly the binding of `k`. -/
theorem filter_values_eq_lookupD (m : List (Val × Row)) (k : Val)
    (hinv : dictInv m) (hnd : (m.map (·.1)).Nodup) :
    (m.map (·.2)).filter (keyedBat k) =
      (match lookupD k m with | some v => [v] | none => []) := by
  induction m with
  | nil => simp [lookupD]
  | cons p m ih =>
    have hpinv := hinv p (List.mem_cons_self p m)
    have hminv : dictInv m := fun q hq => hinv q (List.mem_cons_of_mem p hq)
    have hmnd : (m.map (·.1)).Nodup := (List.nodup_cons.mp hnd).2
    have hknotin : p.1 ∉ m.map (·.1) := (List.nodup_cons.mp hnd).1
    rw [List.map_cons, List.filter_cons, lookupD]
    by_cases hpk : p.1 = k
    · have hkey : keyedBat k p.2 = true := by
        unfold keyedBat
        rw [hpinv.1, hpk]
        simp
      rw [if_pos hkey, if_pos hpk]
      have hrest : (m.map (·.2)).filter (keyedBat k) = [] := by
        rw [List.filter_eq_nil_iff]
        intro v hv
        obtain ⟨q, hq, hqe⟩ := List.mem_map.mp hv
        have hqk := (hminv q hq).1
        unfold keyedBat
        rw [← hqe, hqk]
        simp only [decide_eq_true_eq]
        intro hcon
        apply hknotin
        rw [hpk, ← Option.some.inj hcon]
        exact List.mem_map.mpr ⟨q, hq, rfl⟩
      rw [hrest]
    · have hkey : keyedBat k p.2 = false := by
        unfold keyedBat
        rw [hpinv.1]
        simp only [decide_eq_false_iff_not]
        intro hcon
        exact hpk (Option.some.inj hcon)
      rw [if_neg (by simp [hkey]), if_neg hpk]
      exact ih hminv hmnd

/-- The fold of `lookupD_batDict` evaluated when the last occurrence of key
`k` in the row list is the row `r`. -/
theorem foldl_last_of_suffix_free (nw1 nw2 : List Row) (r : Row) (k : Val)
    (hr : keyBat r = some k) (h2 : ∀ x ∈ nw2, keyBat x ≠ some k) :
    ∀ init, (nw1 ++ r :: nw2).foldl
      (fun a x => if keyBat x = some k then some x else a) init = some r := by
  intro init
  rw [List.foldl_append, List.foldl_cons, if_pos hr]
  induction nw2 with
  | nil => rfl
  | cons x xs ih =>
    rw [List.foldl_cons, if_neg (h2 x (List.mem_cons_self x xs))]
    exact ih (fun y hy => h2 y (List.mem_cons_of_mem x hy))

/-! ### Lemmas about `drop_duplicates(keep='first')` -/

theorem dedupFirstGo_filter (l : List Row) :
    ∀ (seen : List (Option Val)) (k : Option Val),
      (dedupFirstGo seen l).filter (keyedCnb k) =
        if k ∈ seen then [] else (l.filter (keyedCnb k)).take 1 := by
  induction l with
  | nil =>
    intro seen k
    by_cases h : k ∈ seen <;> simp [dedupFirstGo, h]
  | cons r rs ih =>
    intro seen k
    rw [dedupFirstGo]
    by_cases hseen : keyCnb r ∈ seen
    · rw [if_pos hseen, ih seen k, List.filter_cons]
      by_cases hk : keyedCnb k r = true
      · have : keyCnb r = k := of_decide_eq_true hk
        rw [if_pos hk, if_pos (this ▸ hseen), if_pos (this ▸ hseen)]
      · rw [if_neg hk]
    · rw [if_neg hseen, List.filter_cons, List.filter_cons]
      by_cases hk : keyedCnb k r = true
      · have hrk : keyCnb r = k := of_decide_eq_true hk
        rw [if_pos hk, if_pos hk, ih (keyCnb r :: seen) k]
        rw [if_pos (hrk ▸ List.mem_cons_self (keyCnb r) seen)]
        rw [if_neg (hrk ▸ hseen)]
        rfl
      · have hrk : ¬ (keyCnb r = k) := fun h => hk (decide_eq_true h)
        rw [if_neg hk, if_neg hk, ih (keyCnb r :: seen) k]
        by_cases hks : k ∈ seen
        · rw [if_pos hks, if_pos (List.mem_cons_of_mem _ hks)]
        · rw [if_neg hks, if_neg (by
            intro hmem
            rcases List.mem_cons.mp hmem with h1 | h2
            · exact hrk h1.symm
            · exact hks h2)]

theorem mem_dedupFirstGo (l : List Row) :
    ∀ (seen : List (Option Val)) (r : Row), r ∈ dedupFirstGo seen l → r ∈ l := by
  induction l with
  | nil => intro seen r h; exact absurd h (List.not_mem_nil r)
  | cons x xs ih =>
    intro seen r h
    rw [dedupFirstGo] at h
    by_cases hseen : keyCnb x ∈ seen
    · rw [if_pos hseen] at h
      exact List.mem_cons_of_mem x (ih seen r h)
    · rw [if_neg hseen] at h
      rcases List.mem_cons.mp h with h1 | h2
      · rw [h1]; exact List.mem_cons_self x xs
      · exact List.mem_cons_of_mem x (ih _ r h2)

theorem keys_nodup_dedupFirstGo (l : List Row) :
    ∀ (seen : List (Option Val)),
      ((dedupFirstGo seen l).map keyCnb).Nodup ∧
        ∀ k ∈ (dedupFirstGo seen l).map keyCnb, k ∉ seen := by
  induction l with
  | nil => intro seen; simp [dedupFirstGo]
  | cons r rs ih =>
    intro seen
    rw [dedupFirstGo]
    by_cases hseen : keyCnb r ∈ seen
    · rw [if_pos hseen]; exact ih seen
    · rw [if_neg hseen, List.map_cons]
      obtain ⟨hnd, hout⟩ := ih (keyCnb r :: seen)
      constructor
      · rw [List.nodup_cons]
        refine ⟨?_, hnd⟩
        intro hmem
        exact hout (keyCnb r) hmem (List.mem_cons_self _ _)
      · intro k hk
        rcases List.mem_cons.mp hk with h1 | h2
        · rw [h1]; exact hseen
        · intro hks
          exact hout k h2 (List.mem_cons_of_mem _ hks)

theorem dedupFirstGo_all_known (nw : List Row) :
    ∀ (seen : List (Option Val)), (∀ r ∈ nw, keyCnb r ∈ seen) →
      dedupFirstGo seen nw = [] := by
  induction nw with
  | nil => intro seen _; rfl
  | cons r rs ih =>
    intro seen h
    rw [dedupFirstGo, if_pos (h r (List.mem_cons_self r rs))]
    exact ih seen (fun x hx => h x (List.mem_cons_of_mem r hx))

theorem dedupFirstGo_append_known (ex : List Row) :
    ∀ (seen : List (Option Val)) (nw : List Row),
      (ex.map keyCnb).Nodup →
      (∀ r ∈ ex, keyCnb r ∉ seen) →
      (∀ r ∈ nw, keyCnb r ∈ seen ∨ keyCnb r ∈ ex.map keyCnb) →
      dedupFirstGo seen (ex ++ nw) = ex := by
  induction ex with
  | nil =>
    intro seen nw _ _ hnw
    rw [List.nil_append]
    apply dedupFirstGo_all_known
    intro r hr
    rcases hnw r hr with h1 | h2
    · exact h1
    · exact absurd h2 (by simp)
  | cons e ex ih =>
    intro seen nw hnd hseen hnw
    rw [List.cons_append, dedupFirstGo,
      if_neg (hseen e (List.mem_cons_self e ex))]
    congr 1
    have hnd' : (ex.map keyCnb).Nodup := by
      rw [List.map_cons, List.nodup_cons] at hnd
      exact hnd.2
    have henotin : keyCnb e ∉ ex.map keyCnb := by
      rw [List.map_cons, List.nodup_cons] at hnd
      exact hnd.1
    apply ih (keyCnb e :: seen) nw hnd'
    · intro r hr hmem
      rcases List.mem_cons.mp hmem with h1 | h2
      · exact henotin (h1 ▸ List.mem_map.mpr ⟨r, hr, rfl⟩)
      · exact hseen r (List.mem_cons_of_mem e hr) h2
    · intro r hr
      rcases hnw r hr with h1 | h2
      · exact Or.inl (List.mem_cons_of_mem _ h1)
      · rw [List.map_cons] at h2
        rcases List.mem_cons.mp h2 with h3 | h4
        · exact Or.inl (h3 ▸ List.mem_cons_self _ _)
        · exact Or.inr h4

/-! ### Claim theorems: merge and persistence -/

/-- Concrete rows sharing the key `"k"` but with different `views` and
`year` fields, for the C1 and C3 counterexamples. -/
def rowKv1 : Row :=
  [("auction_url".data, Val.vstr "k".data), ("views".data, Val.vstr "5".data),
   ("year".data, Val.vnat 2000)]

/-- Second concrete row with the same key as `rowKv1`. -/
def rowKv2 : Row :=
  [("auction_url".data, Val.vstr "k".data), ("views".data, Val.vstr "9".data),
   ("year".data, Val.vnat 2001)]

/-- Claim C1 is false as stated for the CNB scraper: merging an existing
Dataset holding key `"k"` (row `rowKv1`) with a batch holding the same key
with different field values (`rowKv2`) yields the EXISTING row, not the
batch's row — `drop_duplicates(keep='first')` keeps the earlier occurrence. -/
theorem claim1_counterexample :
    cnbMerge [rowKv1] [rowKv2] = [rowKv1] ∧ rowKv1 ≠ rowKv2 := by
  constructor
  · rfl
  · decide

/-- Claim C1, amended: merging a Dataset containing key K with a batch also
containing K yields exactly one row for K; for the BAT scraper
(`save_outputs`) that row is the batch's most recently appended row for K
(last-write-wins), while for the CNB scraper (`main`'s
concatenate-deduplicate-sort) it is the EXISTING Dataset's row for K
(`keep='first'`). -/
theorem claim1_amended :
    (∀ (ex nw1 nw2 : List Row) (r : Row) (k : Val),
      keyBat r = some k → truthyV k = true →
      (∀ x ∈ nw2, keyBat x ≠ some k) →
      (batMerge ex (nw1 ++ r :: nw2)).filter (keyedBat k) = [r]) ∧
    (∀ (ex nw : List Row) (r : Row) (k : Option Val),
      (ex.filter (keyedCnb k)).head? = some r →
      (cnbMerge ex nw).filter (keyedCnb k) = [r]) := by
  constructor
  · intro ex nw1 nw2 r k hr hk h2
    unfold batMerge batDeduped
    rw [filter_values_eq_lookupD _ k
      (dictInv_batDict _ _ (fun p hp => absurd hp (List.not_mem_nil p)))
      (keysNodup_batDict _ _ (by simp))]
    rw [lookupD_batDict _ k hk]
    have : lookupD k ([] : List (Val × Row)) = none := rfl
    rw [this]
    have hassoc : ex ++ (nw1 ++ r :: nw2) = (ex ++ nw1) ++ r :: nw2 := by
      rw [List.append_assoc]
    rw [hassoc, foldl_last_of_suffix_free (ex ++ nw1) nw2 r k hr h2]
  · intro ex nw r k hhead
    have hperm : List.Perm ((cnbMerge ex nw).filter (keyedCnb k))
        ((dropDuplicatesFirst (ex ++ nw)).filter (keyedCnb k)) :=
      (List.perm_insertionSort yearGe _).filter _
    have hdedup : (dropDuplicatesFirst (ex ++ nw)).filter (keyedCnb k) =
        ((ex ++ nw).filter (keyedCnb k)).take 1 := by
      unfold dropDuplicatesFirst
      rw [dedupFirstGo_filter (ex ++ nw) [] k]
      rw [if_neg (List.not_mem_nil k)]
    obtain ⟨t, ht⟩ : ∃ t, ex.filter (keyedCnb k) = r :: t := by
      cases hfe : ex.filter (keyedCnb k) with
      | nil => rw [hfe] at hhead; exact absurd hhead (by simp)
      | cons a t =>
        rw [hfe] at hhead
        have har : a = r := by simpa using hhead
        exact ⟨t, by rw [har]⟩

    have htake : ((ex ++ nw).filter (keyedCnb k)).take 1 = [r] := by
      rw [List.filter_append, ht, List.cons_append]
      rfl
    rw [hdedup, htake] at hperm
    exact List.perm_singleton.mp hperm

/-- Witness for `claim1_amended` at concrete inputs: both the BAT and the
CNB conjuncts applied to the two concrete rows sharing key `"k"`. -/
theorem claim1_amended_witness :
    (batMerge [rowKv1] ([] ++ rowKv2 :: [])).filter (keyedBat (Val.vstr "k".data))
        = [rowKv2] ∧
    (cnbMerge [rowKv1] [rowKv2]).filter (keyedCnb (some (Val.vstr "k".data)))
        = [rowKv1] := by
  constructor
  · exact claim1_amended.1 [rowKv1] [] [] rowKv2 (Val.vstr "k".data)
      (by decide) (by decide) (by intro x hx; exact absurd hx (List.not_mem_nil x))
  · exact claim1_amended.2 [rowKv1] [rowKv2] rowKv1 (some (Val.vstr "k".data))
      (by decide)

/-- Claim C3 is false as stated for the BAT scraper: merging a Dataset
`[rowKv1]` with a batch `[rowKv2]` whose only key is already known yields
`[rowKv2]`, not the input Dataset — `save_outputs` is last-write-wins, so a
batch of already-known keys REPLACES the stored rows. -/
theorem claim3_counterexample :
    batMerge [rowKv1] [rowKv2] = [rowKv2] ∧ rowKv1 ≠ rowKv2 := by
  constructor
  · rfl
  · decide

/-- Claim C3, amended: for the CNB scraper only, merging a Dataset with
distinct keys with a batch all of whose keys already occur in the Dataset
yields the same row multiset as the input Dataset (the order may change,
because the merge re-sorts by year).  In the BAT scraper the batch's rows
replace the stored rows of the same key instead (see
`claim3_counterexample`). -/
theorem claim3_amended (ex nw : List Row)
    (hnd : (ex.map keyCnb).Nodup)
    (hknown : ∀ r ∈ nw, keyCnb r ∈ ex.map keyCnb) :
    List.Perm (cnbMerge ex nw) ex := by
  unfold cnbMerge dropDuplicatesFirst
  rw [dedupFirstGo_append_known ex [] nw hnd
    (fun r _ => List.not_mem_nil (keyCnb r))
    (fun r hr => Or.inr (hknown r hr))]
  exact List.perm_insertionSort yearGe ex

/-- Witness for `claim3_amended`: the concrete one-row Dataset `[rowKv1]`
merged with the already-known-key batch `[rowKv2]` is a permutation of the
Dataset. -/
theorem claim3_amended_witness : List.Perm (cnbMerge [rowKv1] [rowKv2]) [rowKv1] :=
  claim3_amended [rowKv1] [rowKv2] (by decide) (by decide)

/-- Claim C2, amended (positive part): the Datasets produced by the FINAL
merge of either scraper have pairwise-distinct `auction_url` keys: the CNB
concatenate-deduplicate-sort and the BAT `save_outputs` dedup both
guarantee it.  (The CNB mid-run checkpoint write does not — see
`claim2_counterexample`.) -/
theorem claim2_amended (ex nw : List Row) :
    ((cnbMerge ex nw).map keyCnb).Nodup ∧ ((batMerge ex nw).map keyBat).Nodup := by
  constructor
  · have hperm : List.Perm ((cnbMerge ex nw).map keyCnb)
        ((dropDuplicatesFirst (ex ++ nw)).map keyCnb) :=
      (List.perm_insertionSort yearGe _).map keyCnb
    exact hperm.nodup_iff.mpr (keys_nodup_dedupFirstGo (ex ++ nw) []).1
  · unfold batMerge batDeduped
    have hinv : dictInv (batDict (ex ++ nw) []) :=
      dictInv_batDict _ _ (fun p hp => absurd hp (List.not_mem_nil p))
    have hnd : ((batDict (ex ++ nw) []).map (·.1)).Nodup :=
      keysNodup_batDict _ _ (by simp)
    have hcongr : ((batDict (ex ++ nw) []).map (·.2)).map keyBat =
        (batDict (ex ++ nw) []).map (fun p => some p.1) := by
      rw [List.map_map]
      apply List.map_congr_left
      intro p hp
      exact (hinv p hp).1
    rw [hcongr]
    have : (batDict (ex ++ nw) []).map (fun p => some p.1) =
        ((batDict (ex ++ nw) []).map (·.1)).map some := by
      rw [List.map_map]
      rfl
    rw [this]
    exact hnd.map (fun a b h => Option.some.inj h)

/-- Claim C10: `save_outputs` silently drops every record whose
`auction_url` key is missing, `None`, or empty from the persisted (JSON and
CSV) data: every persisted row carries a truthy `auction_url`, and every
persisted row is one of the input rows. -/
theorem claim10_only_keyed_rows_persisted (ex nw : List Row) (r : Row)
    (hr : r ∈ batMerge ex nw) :
    (∃ k, keyBat r = some k ∧ truthyV k = true) ∧ r ∈ ex ++ nw := by
  unfold batMerge batDeduped at hr
  obtain ⟨p, hp, hpe⟩ := List.mem_map.mp hr
  have hinv : dictInv (batDict (ex ++ nw) []) :=
    dictInv_batDict _ _ (fun q hq => absurd hq (List.not_mem_nil q))
  constructor
  · refine ⟨p.1, ?_, (hinv p hp).2⟩
    rw [← hpe]
    exact (hinv p hp).1
  · rcases mem_batDict _ _ p hp with h1 | h2
    · exact absurd h1 (List.not_mem_nil p)
    · exact hpe ▸ h2

/-- A row with an empty `auction_url`, used in the C10 witness. -/
def rowNoKey : Row := [("auction_url".data, Val.vstr []), ("views".data, Val.vstr "7".data)]

/-- Witness for `claim10_only_keyed_rows_persisted`: applying it to the
one persisted row of a concrete merge (which also drops `rowNoKey`). -/
theorem claim10_witness :
    (∃ k, keyBat rowKv2 = some k ∧ truthyV k = true) ∧
      rowKv2 ∈ [rowNoKey] ++ [rowKv2] :=
  claim10_only_keyed_rows_persisted [rowNoKey] [rowKv2] rowKv2 (by decide)

/-! ### Character and string helpers -/

/-- ASCII digit test (`\d` on the inputs at hand). -/
def isDigitC (c : Char) : Bool := decide ('0' ≤ c) && decide (c ≤ '9')

/-- Python `\s` whitespace class (space, tab, newline, return, vtab, feed). -/
def isWsC (c : Char) : Bool :=
  c == ' ' || c == '\t' || c == '\n' || c == '\r' || c == '\x0b' || c == '\x0c'

/-- Word character for `\b` boundaries (`\w`): alphanumeric or underscore. -/
def isWordC (c : Char) : Bool := c.isAlphanum || c == '_'

/-- Value of an ASCII digit character. -/
def digVal (c : Char) : Nat := c.toNat - '0'.toNat

/-- Read exactly four digits (`\d{4}`) from the head of a string, returning
their value and the remaining characters. -/
def fourDigitsAt : Str → Option (Nat × Str)
  | a :: b :: c :: d :: rest =>
    if isDigitC a && isDigitC b && isDigitC c && isDigitC d then
      some (1000 * digVal a + 100 * digVal b + 10 * digVal c + digVal d, rest)
    else none
  | _ => none

/-- `p` is a leading segment of `s`. -/
def leadsWith : Str → Str → Bool
  | [], _ => true
  | _ :: _, [] => false
  | a :: p, b :: s => (a == b) && leadsWith p s

/-- `pat in s` (Python substring containment). -/
def hasSub (pat : Str) : Str → Bool
  | [] => leadsWith pat []
  | c :: t => leadsWith pat (c :: t) || hasSub pat t

/-- ASCII-lowercase a string (`str.lower()` on the ASCII labels at hand). -/
def lowerStr (s : Str) : Str := s.map Char.toLower

/-- Drop leading whitespace. -/
def dropWsHead : Str → Str
  | [] => []
  | c :: t => if isWsC c then dropWsHead t else c :: t

/-- `str.strip()`. -/
def stripWs (s : Str) : Str := dropWsHead ((dropWsHead s.reverse).reverse)

/-- Leftmost match of a head-position matcher (`re.search` scanning). -/
def scanFirst (f : Str → Option Nat) : Str → Option Nat
  | [] => f []
  | c :: t =>
    match f (c :: t) with
    | some y => some y
    | none => scanFirst f t

/-- Leftmost match of a matcher that also sees the previous character (for
`\b` word boundaries). -/
def scanBnd (f : Option Char → Str → Option Nat) : Option Char → Str → Option Nat
  | prev, [] => f prev []
  | prev, c :: t =>
    match f prev (c :: t) with
    | some y => some y
    | none => scanBnd f (some c) t

/-! ### Year extraction: URL patterns (both scrapers) -/

/-- Head match of `-(\d{4})-`. -/
def hyph4At : Str → Option Nat
  | '-' :: rest =>
    match fourDigitsAt rest with
    | some (y, '-' :: _) => some y
    | _ => none
  | _ => none

/-- Length of the maximal leading run of non-`'/'` characters (the greedy
budget of `[^/]*`). -/
def nonSlashRun : Str → Nat
  | [] => 0
  | c :: t => if c == '/' then 0 else nonSlashRun t + 1

/-- Greedy backtracking of `[^/]*-(\d{4})-` over `rest`: try the largest
number of consumed characters first, as the regex engine does. -/
def greedyHyph4 (rest : Str) : Nat → Option Nat
  | 0 => hyph4At rest
  | k + 1 =>
    match hyph4At (rest.drop (k + 1)) with
    | some y => some y
    | none => greedyHyph4 rest k

/-- Head match of `/auctions/[^/]*-(\d{4})-`. -/
def auctionsGreedyAt (s : Str) : Option Nat :=
  if leadsWith "/auctions/".data s then
    greedyHyph4 (s.drop 10) (nonSlashRun (s.drop 10))
  else none

/-- Head match of `/auctions/(\d{4})-`. -/
def auctionsDigitsAt (s : Str) : Option Nat :=
  if leadsWith "/auctions/".data s then
    match fourDigitsAt (s.drop 10) with
    | some (y, '-' :: _) => some y
    | _ => none
  else none

/-- Head match of `/listing/(\d{4})-`. -/
def listingDigitsAt (s : Str) : Option Nat :=
  if leadsWith "/listing/".data s then
    match fourDigitsAt (s.drop 9) with
    | some (y, '-' :: _) => some y
    | _ => none
  else none

/-- Lazy `[^/]*?(\d{4})`: find the earliest four-digit group, walking only
through non-`'/'` characters. -/
def lazyDigits : Str → Option Nat
  | [] => none
  | c :: t =>
    match fourDigitsAt (c :: t) with
    | some (y, _) => some y
    | none => if c == '/' then none else lazyDigits t

/-- Head match of `/listing/[^/]*?(\d{4})`. -/
def listingLazyAt (s : Str) : Option Nat :=
  if leadsWith "/listing/".data s then lazyDigits (s.drop 9) else none

/-- The `[1900, 2030]` acceptance window applied to every URL/title match. -/
def inYearRange (y : Nat) : Bool := decide (1900 ≤ y) && decide (y ≤ 2030)

/-- `if match: year = int(..); if 1900 <= year <= 2030: return year` — a
matched year outside the window is discarded and the next pattern tried. -/
def rangeGate : Option Nat → Option Nat
  | some y => if inYearRange y then some y else none
  | none => none

/-- `extract_year_from_url` of cnb_scraper.py (lines 171-188): three URL
patterns in order, each gated by the `[1900, 2030]` window. -/
def cnb_extract_year_from_url (url : Str) : Option Nat :=
  match rangeGate (scanFirst auctionsGreedyAt url) with
  | some y => some y
  | none =>
    match rangeGate (scanFirst auctionsDigitsAt url) with
    | some y => some y
    | none => rangeGate (scanFirst hyph4At url)

/-- `extract_year_from_url` of bat_scraper.py (lines 356-384): two URL
patterns in order, each gated by the `[1900, 2030]` window. -/
def bat_extract_year_from_url (url : Str) : Option Nat :=
  match rangeGate (scanFirst listingDigitsAt url) with
  | some y => some y
  | none => rangeGate (scanFirst listingLazyAt url)

/-! ### Year extraction: title patterns -/

/-- Head-anchored `^(\d{4})\s+`. -/
def titleStartYear (t : Str) : Option Nat :=
  match fourDigitsAt t with
  | some (y, c :: _) => if isWsC c then some y else none
  | _ => none

/-- Head match of `\((\d{4})\)`. -/
def parenYearAt : Str → Option Nat
  | '(' :: rest =>
    match fourDigitsAt rest with
    | some (y, ')' :: _) => some y
    | _ => none
  | _ => none

/-- Head match of `\b(\d{4})\b` given the previous character. -/
def word4At (prev : Option Char) (s : Str) : Option Nat :=
  match fourDigitsAt s with
  | some (y, rest) =>
    let prevOk := match prev with | none => true | some c => !isWordC c
    let nextOk := match rest with | [] => true | c :: _ => !isWordC c
    if prevOk && nextOk then some y else none
  | none => none

/-- `extract_year_from_title` of bat_scraper.py (lines 386-418): year at the
start, year in parentheses, then any four-digit word, each gated by the
`[1900, 2030]` window. -/
def bat_extract_year_from_title (title : Str) : Option Nat :=
  if title.isEmpty then none
  else
    match rangeGate (titleStartYear title) with
    | some y => some y
    | none =>
      match rangeGate (scanFirst parenYearAt title) with
      | some y => some y
      | none => rangeGate (scanBnd word4At none title)

/-- Head match of the CNB title pattern `\b(19|20)\d{2}\b`. -/
def cnbTitle4At (prev : Option Char) (s : Str) : Option Nat :=
  match s with
  | a :: b :: _ =>
    if (a == '1' && b == '9') || (a == '2' && b == '0') then word4At prev s
    else none
  | _ => none

/-- The CNB title fallback (cnb_scraper.py lines 241-244):
`re.search(r'\b(19|20)\d{2}\b', model)` with NO range check on the result. -/
def cnbTitleYear (model : Str) : Option Nat := scanBnd cnbTitle4At none model

/-- cnb_scraper.py lines 239-244: year from the URL patterns, then — only
when that is unset and the model text is nonempty — the unchecked title
token. -/
def cnbResolveYear (url model : Str) : Option Nat :=
  match cnb_extract_year_from_url url with
  | some y => some y
  | none => if model.isEmpty then none else cnbTitleYear model

/-! ### Year extraction: BAT group items -/

/-- One `div.group-item` of a BAT auction page: the optional
`strong.group-title-label` text and the item's full inner text. -/
structure GroupItem where
  label : Option Str
  text : Str
deriving DecidableEq, Repr

/-- One iteration of `extract_year_from_group_items` (bat_scraper.py lines
425-449): a `model` or `year` label is mined with the title extractor; an
`era` label is inspected (`(\d{4})s`) but deliberately contributes nothing
(`pass`). -/
def groupItemYear (gi : GroupItem) : Option Nat :=
  match gi.label with
  | none => none
  | some lblRaw =>
    let lbl := lowerStr (stripWs lblRaw)
    let text := stripWs gi.text
    match (if hasSub "model".data lbl && !text.isEmpty
           then bat_extract_year_from_title text else none) with
    | some y => some y
    | none =>
      if hasSub "year".data lbl && !text.isEmpty
      then bat_extract_year_from_title text else none

/-- `extract_year_from_group_items`: first item that yields a year wins. -/
def extract_year_from_group_items : List GroupItem → Option Nat
  | [] => none
  | gi :: gis =>
    match groupItemYear gi with
    | some y => some y
    | none => extract_year_from_group_items gis

/-- The year-resolution block of `parse_auction` (bat_scraper.py lines
612-645): URL, then nonempty title, then group items. -/
def batResolveYear (url title : Str) (gis : List GroupItem) : Option Nat :=
  match bat_extract_year_from_url url with
  | some y => some y
  | none =>
    match (if title.isEmpty then none else bat_extract_year_from_title title) with
    | some y => some y
    | none => extract_year_from_group_items gis

/-! ### Claim C5: year-resolution order -/

/-- The spec's phrasing of the resolution rule: an ordered candidate list,
first candidate inside `[1900, 2030]` wins. -/
def firstInRange (cands : List (Option Nat)) : Option Nat :=
  ((cands.filterMap id).filter inYearRange).head?

theorem firstInRange_nil : firstInRange [] = none := rfl

theorem firstInRange_cons (o : Option Nat) (rest : List (Option Nat)) :
    firstInRange (o :: rest) =
      (match rangeGate o with
       | some y => some y
       | none => firstInRange rest) := by
  cases o with
  | none => rfl
  | some y =>
    by_cases h : inYearRange y = true
    · simp [firstInRange, rangeGate, List.filterMap_cons, List.filter_cons, h]
    · simp [firstInRange, rangeGate, List.filterMap_cons, List.filter_cons, h]

/-- Spec reading of the BAT URL year: ordered candidates, first in range. -/
def specBatUrlYear (url : Str) : Option Nat :=
  firstInRange [scanFirst listingDigitsAt url, scanFirst listingLazyAt url]

/-- Spec reading of the CNB URL year: ordered candidates, first in range. -/
def specCnbUrlYear (url : Str) : Option Nat :=
  firstInRange [scanFirst auctionsGreedyAt url, scanFirst auctionsDigitsAt url,
    scanFirst hyph4At url]

/-- Spec reading of the BAT title year: start-of-title, parenthesised, any
word token, first in range. -/
def specBatTitleYear (t : Str) : Option Nat :=
  firstInRange [titleStartYear t, scanFirst parenYearAt t, scanBnd word4At none t]

theorem batUrlYear_eq_spec (url : Str) :
    bat_extract_year_from_url url = specBatUrlYear url := by
  unfold bat_extract_year_from_url specBatUrlYear
  rw [firstInRange_cons, firstInRange_cons, firstInRange_nil]
  cases rangeGate (scanFirst listingDigitsAt url) <;>
    cases rangeGate (scanFirst listingLazyAt url) <;> rfl

theorem cnbUrlYear_eq_spec (url : Str) :
    cnb_extract_year_from_url url = specCnbUrlYear url := by
  unfold cnb_extract_year_from_url specCnbUrlYear
  rw [firstInRange_cons, firstInRange_cons, firstInRange_cons, firstInRange_nil]
  cases rangeGate (scanFirst auctionsGreedyAt url) <;>
    cases rangeGate (scanFirst auctionsDigitsAt url) <;>
    cases rangeGate (scanFirst hyph4At url) <;> rfl

theorem batTitleYear_eq_spec (t : Str) :
    bat_extract_year_from_title t = specBatTitleYear t := by
  unfold bat_extract_year_from_title specBatTitleYear
  by_cases ht : t.isEmpty
  · have : t = [] := List.isEmpty_iff.mp ht
    subst this
    rfl
  · rw [if_neg ht, firstInRange_cons, firstInRange_cons, firstInRange_cons,
      firstInRange_nil]
    cases rangeGate (titleStartYear t) <;>
      cases rangeGate (scanFirst parenYearAt t) <;>
      cases rangeGate (scanBnd word4At none t) <;> rfl

/-- Spec reading of the whole BAT resolution: URL candidates, then title
candidates when the title is nonempty, then the labelled group items. -/
def specBatResolveYear (url title : Str) (gis : List GroupItem) : Option Nat :=
  match specBatUrlYear url with
  | some y => some y
  | none =>
    match (if title.isEmpty then none else specBatTitleYear title) with
    | some y => some y
    | none => extract_year_from_group_items gis

/-- Spec reading of the CNB resolution: URL candidates first, then the raw
`(19|20)\d\d` title token (which the code does NOT range-gate). -/
def specCnbResolveYear (url model : Str) : Option Nat :=
  match specCnbUrlYear url with
  | some y => some y
  | none => if model.isEmpty then none else cnbTitleYear model

theorem batResolveYear_eq_spec (url title : Str) (gis : List GroupItem) :
    batResolveYear url title gis = specBatResolveYear url title gis := by
  unfold batResolveYear specBatResolveYear
  rw [batUrlYear_eq_spec, batTitleYear_eq_spec]

theorem cnbResolveYear_eq_spec (url model : Str) :
    cnbResolveYear url model = specCnbResolveYear url model := by
  unfold cnbResolveYear specCnbResolveYear
  rw [cnbUrlYear_eq_spec]

/-- Claim C5 is false as stated: on a CNB auction page whose URL contains no
year pattern and whose title's only four-digit token is `2099` — outside
`[1900, 2030]` — the code sets the year to `2099` instead of leaving it
unset, because the CNB title fallback has no range check. -/
theorem claim5_counterexample :
    cnbResolveYear "https://carsandbids.com/auctions/concept".data
        "2099 Car Concept".data = some 2099 ∧
      inYearRange 2099 = false := by
  constructor
  · rfl
  · rfl

/-- Claim C5, amended: the BAT scraper resolves the year exactly as the
ordered first-in-`[1900,2030]`-candidate rule over (1) URL patterns,
(2)-(3) title patterns, (4) `model`/`year`-labelled group items — with an
`era`-labelled group item never contributing; the CNB scraper uses only its
URL patterns (range-gated) followed by any `(19|20)\d\d` title token
WITHOUT a range check. -/
theorem claim5_amended :
    (∀ url, bat_extract_year_from_url url = specBatUrlYear url) ∧
    (∀ t, bat_extract_year_from_title t = specBatTitleYear t) ∧
    (∀ url, cnb_extract_year_from_url url = specCnbUrlYear url) ∧
    (∀ url title gis, batResolveYear url title gis = specBatResolveYear url title gis) ∧
    (∀ url model, cnbResolveYear url model = specCnbResolveYear url model) ∧
    (∀ lblRaw text,
      hasSub "model".data (lowerStr (stripWs lblRaw)) = false →
      hasSub "year".data (lowerStr (stripWs lblRaw)) = false →
      groupItemYear ⟨some lblRaw, text⟩ = none) :=
  ⟨batUrlYear_eq_spec, batTitleYear_eq_spec, cnbUrlYear_eq_spec,
   batResolveYear_eq_spec, cnbResolveYear_eq_spec,
   fun lblRaw text h1 h2 => by simp [groupItemYear, h1, h2]⟩

/-- Witness for `claim5_amended`: the resolution equalities at a concrete
BAT input, and the era conjunct applied to a concrete `Era: 1960s` group
item with both label hypotheses discharged. -/
theorem claim5_amended_witness :
    batResolveYear "https://bringatrailer.com/listing/2007-mercedes-benz-sl65-amg-37/".data
        "2007 Mercedes-Benz SL65 AMG".data [] =
      specBatResolveYear "https://bringatrailer.com/listing/2007-mercedes-benz-sl65-amg-37/".data
        "2007 Mercedes-Benz SL65 AMG".data [] ∧
    groupItemYear ⟨some "Era".data, "1960s".data⟩ = none :=
  ⟨claim5_amended.2.2.2.1 _ _ [],
   claim5_amended.2.2.2.2.2 "Era".data "1960s".data (by decide) (by decide)⟩

/-! ### `clean_text` (cnb_scraper.py lines 190-196) -/

/-- Case-insensitive character comparison (ASCII). -/
def lowEq (c d : Char) : Bool := c.toLower == d.toLower

/-- Case-insensitive `p` is a leading segment of `s`. -/
def leadsWithCI : Str → Str → Bool
  | [], _ => true
  | _ :: _, [] => false
  | a :: p, b :: s => lowEq a b && leadsWithCI p s

/-- Collapse every consecutive pair of spaces (helper for `\s+` → `' '`). -/
def squeezeSpaces : Str → Str
  | [] => []
  | [c] => [c]
  | a :: b :: t =>
    if a == ' ' && b == ' ' then squeezeSpaces (b :: t)
    else a :: squeezeSpaces (b :: t)

/-- `re.sub(r'\s+', ' ', text)`: every whitespace run becomes one space. -/
def collapseWs (s : Str) : Str :=
  squeezeSpaces (s.map (fun c => if isWsC c then ' ' else c))

/-- Match `\s*save\s*` (IGNORECASE) at the head; on success return the
remaining characters after the match. -/
def saveAt (s : Str) : Option Str :=
  let s1 := dropWsHead s
  if leadsWithCI "save".data s1 then some (dropWsHead (s1.drop 4)) else none

theorem dropWsHead_length (s : Str) : (dropWsHead s).length ≤ s.length := by
  induction s with
  | nil => exact Nat.le_refl 0
  | cons c t ih =>
    rw [dropWsHead]
    by_cases h : isWsC c = true
    · rw [if_pos h]
      exact Nat.le_succ_of_le ih
    · rw [if_neg h]

theorem leadsWithCI_length (p s : Str) (h : leadsWithCI p s = true) :
    p.length ≤ s.length := by
  induction p generalizing s with
  | nil => exact Nat.zero_le _
  | cons a p ih =>
    cases s with
    | nil => exact absurd h (by simp [leadsWithCI])
    | cons b s =>
      rw [leadsWithCI, Bool.and_eq_true] at h
      exact Nat.succ_le_succ (ih s h.2)

theorem saveAt_length (s rest : Str) (h : saveAt s = some rest) :
    rest.length < s.length := by
  unfold saveAt at h
  by_cases hl : leadsWithCI "save".data (dropWsHead s) = true
  · rw [if_pos hl] at h
    have hrest : rest = dropWsHead ((dropWsHead s).drop 4) := (Option.some.inj h).symm
    have h4 : 4 ≤ (dropWsHead s).length := leadsWithCI_length _ _ hl
    have hd : ((dropWsHead s).drop 4).length = (dropWsHead s).length - 4 :=
      List.length_drop 4 (dropWsHead s)
    have h1 : rest.length ≤ (dropWsHead s).length - 4 := by
      rw [hrest]
      exact le_trans (dropWsHead_length _) (le_of_eq hd)
    have h2 : (dropWsHead s).length ≤ s.length := dropWsHead_length s
    omega
  · rw [if_neg hl] at h
    exact absurd h (by simp)

/-- Fuel-driven worker for the `save` removal; by `saveAt_length` every
match strictly shortens the string, so fuel equal to the input length is
never exhausted. -/
def removeSavesGo : Nat → Str → Str
  | 0, s => s
  | _ + 1, [] => []
  | fuel + 1, c :: t =>
    match saveAt (c :: t) with
    | some rest => removeSavesGo fuel rest
    | none => c :: removeSavesGo fuel t

/-- `re.sub(r'\s*save\s*', '', text, flags=re.IGNORECASE)`: left-to-right
non-overlapping removal. -/
def removeSaves (s : Str) : Str := removeSavesGo s.length s

/-- `clean_text`: collapse whitespace, delete `save` (with surrounding
whitespace), strip. -/
def clean_text (s : Str) : Str := stripWs (removeSaves (collapseWs s))

/-! ### Record updates (`data["k"] = v`) -/

/-- Python dict assignment on a record: replace in place when the key
exists, else append. -/
def setV (r : Row) (k : Str) (v : Val) : Row :=
  if r.any (fun p => decide (p.1 = k)) then
    r.map (fun p => if p.1 = k then (k, v) else p)
  else r ++ [(k, v)]

/-- The key list of a record (`data.keys()`). -/
def keysOf (r : Row) : List Str := r.map (·.1)

theorem lookupV_append_single (r : Row) (k k' : Str) (v : Val) :
    lookupV k' (r ++ [(k, v)]) =
      (match lookupV k' r with
       | some w => some w
       | none => if k = k' then some v else none) := by
  induction r with
  | nil => simp [lookupV]
  | cons p r ih =>
    by_cases hp : p.1 = k' <;> simp [lookupV, hp, ih]

theorem lookupV_mapReplace (r : Row) (k : Str) (v : Val) (k' : Str) :
    lookupV k' (r.map (fun p => if p.1 = k then (k, v) else p)) =
      (lookupV k' r).map (fun w => if k = k' then v else w) := by
  induction r with
  | nil => simp [lookupV]
  | cons p r ih =>
    rw [List.map_cons]
    by_cases hpk : p.1 = k
    · rw [if_pos hpk]
      by_cases hkk : k = k'
      · rw [lookupV, if_pos hkk, lookupV, if_pos (hpk.trans hkk)]
        simp [hkk]
      · rw [lookupV, if_neg hkk, lookupV, if_neg (fun h => hkk (hpk.symm.trans h)), ih]
    · rw [if_neg hpk]
      by_cases hp' : p.1 = k'
      · have hkk : ¬ (k = k') := fun h => hpk (hp'.trans h.symm)
        rw [lookupV, if_pos hp', lookupV, if_pos hp']
        simp [hkk]
      · rw [lookupV, if_neg hp', lookupV, if_neg hp', ih]

theorem lookupV_setV_ne (r : Row) (k k' : Str) (v : Val)
    (h : k' ≠ k) : lookupV k' (setV r k v) = lookupV k' r := by
  have hkk : ¬ (k = k') := fun hh => h hh.symm
  unfold setV
  by_cases hm : r.any (fun p => decide (p.1 = k)) = true
  · rw [if_pos hm, lookupV_mapReplace]
    cases lookupV k' r <;> simp [hkk]
  · rw [if_neg hm, lookupV_append_single]
    cases lookupV k' r <;> simp [hkk]

theorem keysOf_setV (r : Row) (k : Str) (v : Val) (hk : k ∈ keysOf r) :
    keysOf (setV r k v) = keysOf r := by
  unfold setV
  have hany : r.any (fun p => decide (p.1 = k)) = true := by
    obtain ⟨p, hp, hpe⟩ := List.mem_map.mp hk
    exact List.any_eq_true.mpr ⟨p, hp, by simpa using hpe⟩
  rw [if_pos hany]
  unfold keysOf
  rw [List.map_map]
  apply List.map_congr_left
  intro p _
  by_cases hpk : p.1 = k
  · simp [hpk]
  · simp [hpk]

/-! ### The CNB page extraction model (`extract_all_auction_data`,
cnb_scraper.py lines 198-383)

Each fallible browser interaction of the source (a `query_selector` plus
`inner_text` inside one `try` block) is an oracle in the page environment:
`.error ()` models the block raising (caught by its `except: pass`),
`.ok none` a missing element, `.ok (some t)` the element's raw inner text.
`rawText` is the page's full text, which the extractor never consults. -/

structure CnbPage where
  waitBodyOk : Bool
  titleRes : Except Unit (Option Str)
  amountSelectors : List (Except Unit (Option Str))
  dateEl : Except Unit (Option Str)
  saleTypeEl : Except Unit (Option Str)
  bidsEl : Except Unit (Option Str)
  viewsEl : Except Unit (Option Str)
  commentsEl : Except Unit (Option Str)
  sellerEl : Except Unit (Option Str)
  facts : Except Unit (List (List (Except Unit (Str × Option Str))))
  rawText : Str

/-- The initial record literal of `extract_all_auction_data` (lines
201-224), in source order: 22 fixed keys. -/
def cnbInitRecord (url now : Str) : Row :=
  [("model".data, Val.vstr []), ("make".data, Val.vstr []),
   ("vin".data, Val.vstr []), ("engine".data, Val.vstr []),
   ("drivetrain".data, Val.vstr []), ("transmission".data, Val.vstr []),
   ("body_style".data, Val.vstr []), ("exterior_color".data, Val.vstr []),
   ("interior_color".data, Val.vstr []), ("title_status".data, Val.vstr []),
   ("location".data, Val.vstr []), ("mileage".data, Val.vstr []),
   ("sale_amount".data, Val.vstr []), ("sale_date".data, Val.vstr []),
   ("sale_type".data, Val.vstr []), ("bids".data, Val.vnat 0),
   ("views".data, Val.vstr []), ("comments".data, Val.vnat 0),
   ("seller".data, Val.vstr []), ("auction_url".data, Val.vstr url),
   ("year".data, Val.vnone), ("scraped_date".data, Val.vstr now)]

/-- The fixed CNB schema: the 22 keys of the record literal. -/
def cnbSchema : List Str :=
  ["model".data, "make".data, "vin".data, "engine".data, "drivetrain".data,
   "transmission".data, "body_style".data, "exterior_color".data,
   "interior_color".data, "title_status".data, "location".data,
   "mileage".data, "sale_amount".data, "sale_date".data, "sale_type".data,
   "bids".data, "views".data, "comments".data, "seller".data,
   "auction_url".data, "year".data, "scraped_date".data]

/-- String value of a field, `""` when absent or non-string. -/
def getStr (r : Row) (k : Str) : Str :=
  match lookupV k r with
  | some (.vstr s) => s
  | _ => []

/-- Lines 231-237: `data["model"] = clean_text(h1.inner_text())`. -/
def stepTitle (pg : CnbPage) (r : Row) : Row :=
  match pg.titleRes with
  | .ok (some t) => setV r "model".data (Val.vstr (clean_text t))
  | _ => r

/-- Lines 239-244: `data["year"]` from URL then title, via
`cnbResolveYear`. -/
def stepYear (url : Str) (r : Row) : Row :=
  setV r "year".data
    (match cnbResolveYear url (getStr r "model".data) with
     | some y => Val.vnat y
     | none => Val.vnone)

/-- The `for selector in bid_selectors` scan (lines 247-260): first
selector whose stripped text is nonempty wins; a raise aborts the scan
leaving the field unset. -/
def firstNonEmptySel : List (Except Unit (Option Str)) → Option Str
  | [] => none
  | .error _ :: _ => none
  | .ok none :: rest => firstNonEmptySel rest
  | .ok (some t) :: rest =>
    if (stripWs t).isEmpty then firstNonEmptySel rest else some (stripWs t)

/-- Lines 246-262: `data["sale_amount"]`. -/
def stepAmount (pg : CnbPage) (r : Row) : Row :=
  match firstNonEmptySel pg.amountSelectors with
  | some t => setV r "sale_amount".data (Val.vstr t)
  | none => r

/-- The sale-type classification (lines 272-279): `sold` phrase, then
`reserve`, else the lowered raw text. -/
def saleTypeVal (st : Str) : Val :=
  if hasSub "sold".data (lowerStr st) then Val.vstr "sold".data
  else if hasSub "reserve".data (lowerStr st) then Val.vstr "reserve not met".data
  else Val.vstr (lowerStr st)

/-- Lines 264-281: `sale_date` then `sale_type` in one `try` block — a
raise in the second part keeps the already-assigned `sale_date`. -/
def stepDate (pg : CnbPage) (r : Row) : Row :=
  match pg.dateEl with
  | .error _ => r
  | .ok d? =>
    let r1 := match d? with
      | some d => setV r "sale_date".data (Val.vstr (stripWs d))
      | none => r
    match pg.saleTypeEl with
    | .ok (some st) => setV r1 "sale_type".data (saleTypeVal st)
    | _ => r1

/-- Greedy digit run (`\d+` continued). -/
def numRun (acc : Nat) : Str → Nat
  | [] => acc
  | c :: t => if isDigitC c then numRun (10 * acc + digVal c) t else acc

/-- `re.search(r'(\d+)', s)`: value of the first digit run. -/
def firstNumIn : Str → Option Nat
  | [] => none
  | c :: t => if isDigitC c then some (numRun (digVal c) t) else firstNumIn t

/-- Lines 283-292: `data["bids"]` from the first number in
`li.num-bids`. -/
def stepBids (pg : CnbPage) (r : Row) : Row :=
  match pg.bidsEl with
  | .ok (some t) =>
    match firstNumIn t with
    | some n => setV r "bids".data (Val.vnat n)
    | none => r
  | _ => r

/-- Lines 294-300: `data["views"] = text.replace(",", "")`. -/
def stepViews (pg : CnbPage) (r : Row) : Row :=
  match pg.viewsEl with
  | .ok (some t) =>
    setV r "views".data (Val.vstr (t.filter (fun c => !(c == ','))))
  | _ => r

/-- Lines 302-311: `data["comments"]` from the first number in the
comments-count element. -/
def stepComments (pg : CnbPage) (r : Row) : Row :=
  match pg.commentsEl with
  | .ok (some t) =>
    match firstNumIn t with
    | some n => setV r "comments".data (Val.vnat n)
    | none => r
  | _ => r

/-- Lines 313-319: `data["seller"] = clean_text(...)`. -/
def stepSeller (pg : CnbPage) (r : Row) : Row :=
  match pg.sellerEl with
  | .ok (some t) => setV r "seller".data (Val.vstr (clean_text t))
  | _ => r

/-- `.replace(" ", "_")`. -/
def spaceToUnderscore (s : Str) : Str :=
  s.map (fun c => if c == ' ' then '_' else c)

/-- One `dt` iteration of the facts loop (lines 326-359): normalise the
label, clean the value, and assign the matching schema field. -/
def factAssign (r : Row) (keyRaw valRaw : Str) : Row :=
  let key := lowerStr (spaceToUnderscore (stripWs keyRaw))
  let value := clean_text valRaw
  if value.isEmpty || key.isEmpty then r
  else if key = "make".data then setV r "make".data (Val.vstr value)
  else if key = "model".data then
    (if (getStr r "model".data).isEmpty then setV r "model".data (Val.vstr value) else r)
  else if key = "vin".data then setV r "vin".data (Val.vstr value)
  else if key = "engine".data then setV r "engine".data (Val.vstr value)
  else if key = "drivetrain".data then setV r "drivetrain".data (Val.vstr value)
  else if key = "transmission".data then setV r "transmission".data (Val.vstr value)
  else if key = "body_style".data then setV r "body_style".data (Val.vstr value)
  else if key = "exterior_color".data then setV r "exterior_color".data (Val.vstr value)
  else if key = "interior_color".data then setV r "interior_color".data (Val.vstr value)
  else if key = "title_status".data then setV r "title_status".data (Val.vstr value)
  else if key = "location".data then setV r "location".data (Val.vstr value)
  else if key = "mileage".data then setV r "mileage".data (Val.vstr value)
  else r

/-- One `dt` entry: a raise is swallowed by the inner `except: continue`,
a missing `dd` sibling assigns nothing. -/
def stepFactEntry (r : Row) (e : Except Unit (Str × Option Str)) : Row :=
  match e with
  | .error _ => r
  | .ok (_, none) => r
  | .ok (kRaw, some vRaw) => factAssign r kRaw vRaw

/-- Lines 321-361: the whole facts section; its own `except` keeps the
record as built so far. -/
def stepFacts (pg : CnbPage) (r : Row) : Row :=
  match pg.facts with
  | .error _ => r
  | .ok containers => containers.foldl (fun acc c => c.foldl stepFactEntry acc) r

/-- The twelve makes of the hard-coded `common_makes` list (lines
368-369). -/
def commonMakes : List Str :=
  ["Toyota".data, "Honda".data, "Ford".data, "Chevrolet".data, "BMW".data,
   "Mercedes".data, "Audi".data, "Volkswagen".data, "Nissan".data,
   "Mazda".data, "Porsche".data, "Ferrari".data]

/-- `str.split()`: split on whitespace runs, no empty words. -/
def splitWsGo (cur : Str) : Str → List Str
  | [] => if cur.isEmpty then [] else [cur.reverse]
  | c :: t =>
    if isWsC c then
      (if cur.isEmpty then splitWsGo [] t else cur.reverse :: splitWsGo [] t)
    else splitWsGo (c :: cur) t

/-- `model.split()`. -/
def splitWs (s : Str) : List Str := splitWsGo [] s

/-- Lines 364-373: infer `make` from the first model word matching a
common make (case-insensitively). -/
def stepMakeInfer (r : Row) : Row :=
  if (getStr r "make".data).isEmpty && !(getStr r "model".data).isEmpty then
    match (splitWs (getStr r "model".data)).find?
        (fun w => commonMakes.any (fun mk => lowerStr mk == lowerStr w)) with
    | some w => setV r "make".data (Val.vstr w)
    | none => r
  else r

/-- `extract_all_auction_data`: build the default record, then run each
extraction block in source order.  A failing initial `wait_for_selector`
trips the outer `except`, which returns the untouched defaults; every
inner failure is absorbed by its own handler, so the function always
returns a record. -/
def extract_all_auction_data (pg : CnbPage) (url now : Str) : Row :=
  let d0 := cnbInitRecord url now
  if pg.waitBodyOk then
    stepMakeInfer (stepFacts pg (stepSeller pg (stepComments pg (stepViews pg
      (stepBids pg (stepDate pg (stepAmount pg (stepYear url (stepTitle pg d0)))))))))
  else d0

/-! ### Schema and key preservation through the extraction steps -/

theorem keysOf_setV_schema (r : Row) (k : Str) (v : Val)
    (h : keysOf r = cnbSchema) (hk : k ∈ cnbSchema) :
    keysOf (setV r k v) = cnbSchema := by
  rw [keysOf_setV r k v (by rw [h]; exact hk)]
  exact h

theorem stepTitle_keys (pg : CnbPage) (r : Row) (h : keysOf r = cnbSchema) :
    keysOf (stepTitle pg r) = cnbSchema := by
  unfold stepTitle
  cases pg.titleRes with
  | error e => exact h
  | ok t? =>
    cases t? with
    | none => exact h
    | some t => exact keysOf_setV_schema r _ _ h (by decide)

theorem stepYear_keys (url : Str) (r : Row) (h : keysOf r = cnbSchema) :
    keysOf (stepYear url r) = cnbSchema :=
  keysOf_setV_schema r _ _ h (by decide)

theorem stepAmount_keys (pg : CnbPage) (r : Row) (h : keysOf r = cnbSchema) :
    keysOf (stepAmount pg r) = cnbSchema := by
  unfold stepAmount
  cases firstNonEmptySel pg.amountSelectors with
  | none => exact h
  | some t => exact keysOf_setV_schema r _ _ h (by decide)

theorem stepDate_keys (pg : CnbPage) (r : Row) (h : keysOf r = cnbSchema) :
    keysOf (stepDate pg r) = cnbSchema := by
  unfold stepDate
  cases pg.dateEl with
  | error e => exact h
  | ok d? =>
    have h1 : keysOf (match d? with
        | some d => setV r "sale_date".data (Val.vstr (stripWs d))
        | none => r) = cnbSchema := by
      cases d? with
      | none => exact h
      | some d => exact keysOf_setV_schema r _ _ h (by decide)
    cases pg.saleTypeEl with
    | error e => exact h1
    | ok st? =>
      cases st? with
      | none => exact h1
      | some st => exact keysOf_setV_schema _ _ _ h1 (by decide)

theorem stepBids_keys (pg : CnbPage) (r : Row) (h : keysOf r = cnbSchema) :
    keysOf (stepBids pg r) = cnbSchema := by
  unfold stepBids
  cases pg.bidsEl with
  | error e => exact h
  | ok t? =>
    cases t? with
    | none => exact h
    | some t =>
      show keysOf (match firstNumIn t with
        | some n => setV r "bids".data (Val.vnat n)
        | none => r) = cnbSchema
      cases firstNumIn t with
      | none => exact h
      | some n => exact keysOf_setV_schema r _ _ h (by decide)

theorem stepViews_keys (pg : CnbPage) (r : Row) (h : keysOf r = cnbSchema) :
    keysOf (stepViews pg r) = cnbSchema := by
  unfold stepViews
  cases pg.viewsEl with
  | error e => exact h
  | ok t? =>
    cases t? with
    | none => exact h
    | some t => exact keysOf_setV_schema r _ _ h (by decide)

theorem stepComments_keys (pg : CnbPage) (r : Row) (h : keysOf r = cnbSchema) :
    keysOf (stepComments pg r) = cnbSchema := by
  unfold stepComments
  cases pg.commentsEl with
  | error e => exact h
  | ok t? =>
    cases t? with
    | none => exact h
    | some t =>
      show keysOf (match firstNumIn t with
        | some n => setV r "comments".data (Val.vnat n)
        | none => r) = cnbSchema
      cases firstNumIn t with
      | none => exact h
      | some n => exact keysOf_setV_schema r _ _ h (by decide)

theorem stepSeller_keys (pg : CnbPage) (r : Row) (h : keysOf r = cnbSchema) :
    keysOf (stepSeller pg r) = cnbSchema := by
  unfold stepSeller
  cases pg.sellerEl with
  | error e => exact h
  | ok t? =>
    cases t? with
    | none => exact h
    | some t => exact keysOf_setV_schema r _ _ h (by decide)

theorem factAssign_keys (r : Row) (a b : Str) (h : keysOf r = cnbSchema) :
    keysOf (factAssign r a b) = cnbSchema := by
  unfold factAssign
  by_cases h0 : (clean_text b).isEmpty || (lowerStr (spaceToUnderscore (stripWs a))).isEmpty
  · simp only [h0, if_true]
    exact h
  · simp only [h0, if_false]
    by_cases h1 : lowerStr (spaceToUnderscore (stripWs a)) = "make".data
    · simp only [h1, if_true]
      exact keysOf_setV_schema r _ _ h (by decide)
    · simp only [h1, if_false]
      by_cases h2 : lowerStr (spaceToUnderscore (stripWs a)) = "model".data
      · simp only [h2, if_true]
        by_cases h2a : (getStr r "model".data).isEmpty
        · simp only [h2a, if_true]
          exact keysOf_setV_schema r _ _ h (by decide)
        · simp only [h2a, if_false]
          exact h
      · simp only [h2, if_false]
        by_cases h3 : lowerStr (spaceToUnderscore (stripWs a)) = "vin".data
        · simp only [h3, if_true]
          exact keysOf_setV_schema r _ _ h (by decide)
        · simp only [h3, if_false]
          by_cases h4 : lowerStr (spaceToUnderscore (stripWs a)) = "engine".data
          · simp only [h4, if_true]
            exact keysOf_setV_schema r _ _ h (by decide)
          · simp only [h4, if_false]
            by_cases h5 : lowerStr (spaceToUnderscore (stripWs a)) = "drivetrain".data
            · simp only [h5, if_true]
              exact keysOf_setV_schema r _ _ h (by decide)
            · simp only [h5, if_false]
              by_cases h6 : lowerStr (spaceToUnderscore (stripWs a)) = "transmission".data
              · simp only [h6, if_true]
                exact keysOf_setV_schema r _ _ h (by decide)
              · simp only [h6, if_false]
                by_cases h7 : lowerStr (spaceToUnderscore (stripWs a)) = "body_style".data
                · simp only [h7, if_true]
                  exact keysOf_setV_schema r _ _ h (by decide)
                · simp only [h7, if_false]
                  by_cases h8 : lowerStr (spaceToUnderscore (stripWs a)) = "exterior_color".data
                  · simp only [h8, if_true]
                    exact keysOf_setV_schema r _ _ h (by decide)
                  · simp only [h8, if_false]
                    by_cases h9 : lowerStr (spaceToUnderscore (stripWs a)) = "interior_color".data
                    · simp only [h9, if_true]
                      exact keysOf_setV_schema r _ _ h (by decide)
                    · simp only [h9, if_false]
                      by_cases h10 : lowerStr (spaceToUnderscore (stripWs a)) = "title_status".data
                      · simp only [h10, if_true]
                        exact keysOf_setV_schema r _ _ h (by decide)
                      · simp only [h10, if_false]
                        by_cases h11 : lowerStr (spaceToUnderscore (stripWs a)) = "location".data
                        · simp only [h11, if_true]
                          exact keysOf_setV_schema r _ _ h (by decide)
                        · simp only [h11, if_false]
                          by_cases h12 : lowerStr (spaceToUnderscore (stripWs a)) = "mileage".data
                          · simp only [h12, if_true]
                            exact keysOf_setV_schema r _ _ h (by decide)
                          · simp only [h12, if_false]
                            exact h

theorem stepFactEntry_keys (r : Row) (e : Except Unit (Str × Option Str))
    (h : keysOf r = cnbSchema) : keysOf (stepFactEntry r e) = cnbSchema := by
  unfold stepFactEntry
  match e with
  | .error _ => exact h
  | .ok (a, none) => exact h
  | .ok (a, some b) => exact factAssign_keys r a b h

theorem foldl_factEntry_keys (c : List (Except Unit (Str × Option Str)))
    (r : Row) (h : keysOf r = cnbSchema) :
    keysOf (c.foldl stepFactEntry r) = cnbSchema := by
  induction c generalizing r with
  | nil => exact h
  | cons e c ih =>
    rw [List.foldl_cons]
    exact ih _ (stepFactEntry_keys r e h)

theorem stepFacts_keys (pg : CnbPage) (r : Row) (h : keysOf r = cnbSchema) :
    keysOf (stepFacts pg r) = cnbSchema := by
  unfold stepFacts
  cases pg.facts with
  | error e => exact h
  | ok containers =>
    show keysOf (containers.foldl (fun acc c => c.foldl stepFactEntry acc) r) = cnbSchema
    induction containers generalizing r with
    | nil => exact h
    | cons c cs ih =>
      rw [List.foldl_cons]
      exact ih _ (foldl_factEntry_keys c r h)

theorem stepMakeInfer_keys (r : Row) (h : keysOf r = cnbSchema) :
    keysOf (stepMakeInfer r) = cnbSchema := by
  unfold stepMakeInfer
  by_cases hc : ((getStr r "make".data).isEmpty && !(getStr r "model".data).isEmpty) = true
  · simp only [hc, if_true]
    cases (splitWs (getStr r "model".data)).find?
        (fun w => commonMakes.any (fun mk => lowerStr mk == lowerStr w)) with
    | none => exact h
    | some w => exact keysOf_setV_schema r _ _ h (by decide)
  · simp only [hc, if_false]
    exact h

/-! ### Field lookups through the extraction steps -/

theorem stepTitle_get (pg : CnbPage) (r : Row) (k : Str)
    (h : k ≠ "model".data) : lookupV k (stepTitle pg r) = lookupV k r := by
  unfold stepTitle
  cases pg.titleRes with
  | error e => rfl
  | ok t? =>
    cases t? with
    | none => rfl
    | some t => exact lookupV_setV_ne r _ k _ h

theorem stepYear_get (url : Str) (r : Row) (k : Str)
    (h : k ≠ "year".data) : lookupV k (stepYear url r) = lookupV k r :=
  lookupV_setV_ne r _ k _ h

theorem stepAmount_get (pg : CnbPage) (r : Row) (k : Str)
    (h : k ≠ "sale_amount".data) : lookupV k (stepAmount pg r) = lookupV k r := by
  unfold stepAmount
  cases firstNonEmptySel pg.amountSelectors with
  | none => rfl
  | some t => exact lookupV_setV_ne r _ k _ h

theorem stepDate_get (pg : CnbPage) (r : Row) (k : Str)
    (h1 : k ≠ "sale_date".data) (h2 : k ≠ "sale_type".data) :
    lookupV k (stepDate pg r) = lookupV k r := by
  unfold stepDate
  cases pg.dateEl with
  | error e => rfl
  | ok d? =>
    have hr1 : lookupV k (match d? with
        | some d => setV r "sale_date".data (Val.vstr (stripWs d))
        | none => r) = lookupV k r := by
      cases d? with
      | none => rfl
      | some d => exact lookupV_setV_ne r _ k _ h1
    cases pg.saleTypeEl with
    | error e => exact hr1
    | ok st? =>
      cases st? with
      | none => exact hr1
      | some st => rw [lookupV_setV_ne _ _ k _ h2]; exact hr1

theorem stepBids_get (pg : CnbPage) (r : Row) (k : Str)
    (h : k ≠ "bids".data) : lookupV k (stepBids pg r) = lookupV k r := by
  unfold stepBids
  cases pg.bidsEl with
  | error e => rfl
  | ok t? =>
    cases t? with
    | none => rfl
    | some t =>
      show lookupV k (match firstNumIn t with
        | some n => setV r "bids".data (Val.vnat n)
        | none => r) = lookupV k r
      cases firstNumIn t with
      | none => rfl
      | some n => exact lookupV_setV_ne r _ k _ h

theorem stepViews_get (pg : CnbPage) (r : Row) (k : Str)
    (h : k ≠ "views".data) : lookupV k (stepViews pg r) = lookupV k r := by
  unfold stepViews
  cases pg.viewsEl with
  | error e => rfl
  | ok t? =>
    cases t? with
    | none => rfl
    | some t => exact lookupV_setV_ne r _ k _ h

theorem stepComments_get (pg : CnbPage) (r : Row) (k : Str)
    (h : k ≠ "comments".data) : lookupV k (stepComments pg r) = lookupV k r := by
  unfold stepComments
  cases pg.commentsEl with
  | error e => rfl
  | ok t? =>
    cases t? with
    | none => rfl
    | some t =>
      show lookupV k (match firstNumIn t with
        | some n => setV r "comments".data (Val.vnat n)
        | none => r) = lookupV k r
      cases firstNumIn t with
      | none => rfl
      | some n => exact lookupV_setV_ne r _ k _ h

theorem stepSeller_get (pg : CnbPage) (r : Row) (k : Str)
    (h : k ≠ "seller".data) : lookupV k (stepSeller pg r) = lookupV k r := by
  unfold stepSeller
  cases pg.sellerEl with
  | error e => rfl
  | ok t? =>
    cases t? with
    | none => rfl
    | some t => exact lookupV_setV_ne r _ k _ h

/-- The twelve record keys the facts loop can write. -/
def factWriteKeys : List Str :=
  ["make".data, "model".data, "vin".data, "engine".data, "drivetrain".data,
   "transmission".data, "body_style".data, "exterior_color".data,
   "interior_color".data, "title_status".data, "location".data, "mileage".data]

theorem factAssign_get (r : Row) (a b : Str) (k : Str)
    (hk : k ∉ factWriteKeys) : lookupV k (factAssign r a b) = lookupV k r := by
  have hne : ∀ fk : Str, fk ∈ factWriteKeys → k ≠ fk :=
    fun fk hfk he => hk (he ▸ hfk)
  unfold factAssign
  by_cases h0 : (clean_text b).isEmpty || (lowerStr (spaceToUnderscore (stripWs a))).isEmpty
  · simp only [h0, if_true]
  · simp only [h0, if_false]
    by_cases h1 : lowerStr (spaceToUnderscore (stripWs a)) = "make".data
    · simp only [h1, if_true]
      exact lookupV_setV_ne r _ k _ (hne _ (by decide))
    · simp only [h1, if_false]
      by_cases h2 : lowerStr (spaceToUnderscore (stripWs a)) = "model".data
      · simp only [h2, if_true]
        by_cases h2a : (getStr r "model".data).isEmpty
        · simp only [h2a, if_true]
          exact lookupV_setV_ne r _ k _ (hne _ (by decide))
        · simp only [h2a, if_false]
          rfl
      · simp only [h2, if_false]
        by_cases h3 : lowerStr (spaceToUnderscore (stripWs a)) = "vin".data
        · simp only [h3, if_true]
          exact lookupV_setV_ne r _ k _ (hne _ (by decide))
        · simp only [h3, if_false]
          by_cases h4 : lowerStr (spaceToUnderscore (stripWs a)) = "engine".data
          · simp only [h4, if_true]
            exact lookupV_setV_ne r _ k _ (hne _ (by decide))
          · simp only [h4, if_false]
            by_cases h5 : lowerStr (spaceToUnderscore (stripWs a)) = "drivetrain".data
            · simp only [h5, if_true]
              exact lookupV_setV_ne r _ k _ (hne _ (by decide))
            · simp only [h5, if_false]
              by_cases h6 : lowerStr (spaceToUnderscore (stripWs a)) = "transmission".data
              · simp only [h6, if_true]
                exact lookupV_setV_ne r _ k _ (hne _ (by decide))
              · simp only [h6, if_false]
                by_cases h7 : lowerStr (spaceToUnderscore (stripWs a)) = "body_style".data
                · simp only [h7, if_true]
                  exact lookupV_setV_ne r _ k _ (hne _ (by decide))
                · simp only [h7, if_false]
                  by_cases h8 : lowerStr (spaceToUnderscore (stripWs a)) = "exterior_color".data
                  · simp only [h8, if_true]
                    exact lookupV_setV_ne r _ k _ (hne _ (by decide))
                  · simp only [h8, if_false]
                    by_cases h9 : lowerStr (spaceToUnderscore (stripWs a)) = "interior_color".data
                    · simp only [h9, if_true]
                      exact lookupV_setV_ne r _ k _ (hne _ (by decide))
                    · simp only [h9, if_false]
                      by_cases h10 : lowerStr (spaceToUnderscore (stripWs a)) = "title_status".data
                      · simp only [h10, if_true]
                        exact lookupV_setV_ne r _ k _ (hne _ (by decide))
                      · simp only [h10, if_false]
                        by_cases h11 : lowerStr (spaceToUnderscore (stripWs a)) = "location".data
                        · simp only [h11, if_true]
                          exact lookupV_setV_ne r _ k _ (hne _ (by decide))
                        · simp only [h11, if_false]
                          by_cases h12 : lowerStr (spaceToUnderscore (stripWs a)) = "mileage".data
                          · simp only [h12, if_true]
                            exact lookupV_setV_ne r _ k _ (hne _ (by decide))
                          · simp only [h12, if_false]
                            rfl

theorem stepFactEntry_get (r : Row) (e : Except Unit (Str × Option Str))
    (k : Str) (hk : k ∉ factWriteKeys) :
    lookupV k (stepFactEntry r e) = lookupV k r := by
  unfold stepFactEntry
  match e with
  | .error _ => rfl
  | .ok (a, none) => rfl
  | .ok (a, some b) => exact factAssign_get r a b k hk

theorem foldl_factEntry_get (c : List (Except Unit (Str × Option Str)))
    (r : Row) (k : Str) (hk : k ∉ factWriteKeys) :
    lookupV k (c.foldl stepFactEntry r) = lookupV k r := by
  induction c generalizing r with
  | nil => rfl
  | cons e c ih =>
    rw [List.foldl_cons, ih _, stepFactEntry_get r e k hk]

theorem stepFacts_get (pg : CnbPage) (r : Row) (k : Str)
    (hk : k ∉ factWriteKeys) : lookupV k (stepFacts pg r) = lookupV k r := by
  unfold stepFacts
  cases pg.facts with
  | error e => rfl
  | ok containers =>
    show lookupV k (containers.foldl (fun acc c => c.foldl stepFactEntry acc) r)
      = lookupV k r
    induction containers generalizing r with
    | nil => rfl
    | cons c cs ih =>
      rw [List.foldl_cons, ih _, foldl_factEntry_get c r k hk]

theorem stepMakeInfer_get (r : Row) (k : Str) (h : k ≠ "make".data) :
    lookupV k (stepMakeInfer r) = lookupV k r := by
  unfold stepMakeInfer
  by_cases hc : ((getStr r "make".data).isEmpty && !(getStr r "model".data).isEmpty) = true
  · simp only [hc, if_true]
    cases (splitWs (getStr r "model".data)).find?
        (fun w => commonMakes.any (fun mk => lowerStr mk == lowerStr w)) with
    | none => rfl
    | some w => exact lookupV_setV_ne r _ k _ h
  · simp only [hc, if_false]
    rfl

/-- `extract_all_auction_data` always returns the fixed 22-key schema. -/
theorem extract_keys (pg : CnbPage) (url now : Str) :
    keysOf (extract_all_auction_data pg url now) = cnbSchema := by
  unfold extract_all_auction_data
  by_cases hw : pg.waitBodyOk = true
  · simp only [hw, if_true]
    apply stepMakeInfer_keys
    apply stepFacts_keys
    apply stepSeller_keys
    apply stepComments_keys
    apply stepViews_keys
    apply stepBids_keys
    apply stepDate_keys
    apply stepAmount_keys
    apply stepYear_keys
    apply stepTitle_keys
    rfl
  · simp only [hw, if_false]
    rfl

/-- `extract_all_auction_data` never touches the `auction_url` field: the
result always carries the input URL. -/
theorem extract_url (pg : CnbPage) (url now : Str) :
    lookupV "auction_url".data (extract_all_auction_data pg url now)
      = some (Val.vstr url) := by
  unfold extract_all_auction_data
  by_cases hw : pg.waitBodyOk = true
  · simp only [hw, if_true]
    rw [stepMakeInfer_get _ _ (by decide), stepFacts_get _ _ _ (by decide),
      stepSeller_get _ _ _ (by decide), stepComments_get _ _ _ (by decide),
      stepViews_get _ _ _ (by decide), stepBids_get _ _ _ (by decide),
      stepDate_get _ _ _ (by decide) (by decide), stepAmount_get _ _ _ (by decide),
      stepYear_get _ _ _ (by decide), stepTitle_get _ _ _ (by decide)]
    rfl
  · simp only [hw, if_false]
    rfl

/-- Claim C9: `extract_all_auction_data` is total and schema-stable — for
every page state it returns a record with exactly the 22 fixed keys in
order, with `auction_url` equal to the input URL; every internal selector
failure or exception leaves the defaults in place rather than raising. -/
theorem claim9_extraction_total (pg : CnbPage) (url now : Str) :
    keysOf (extract_all_auction_data pg url now) = cnbSchema ∧
      lookupV "auction_url".data (extract_all_auction_data pg url now)
        = some (Val.vstr url) :=
  ⟨extract_keys pg url now, extract_url pg url now⟩

/-! ### Claim C6: structured-empty pages and the (absent) text fallback -/

/-- A structured selector "yields" only when the element exists and its
text was obtained. -/
def selYields : Except Unit (Option Str) → Bool
  | .ok (some _) => true
  | _ => false

theorem stepViews_noYield (pg : CnbPage) (r : Row)
    (h : selYields pg.viewsEl = false) : stepViews pg r = r := by
  unfold stepViews
  cases hv : pg.viewsEl with
  | error e => rfl
  | ok t? =>
    cases t? with
    | none => rfl
    | some t =>
      rw [hv] at h
      exact absurd h (by simp [selYields])

theorem stepBids_noYield (pg : CnbPage) (r : Row)
    (h : selYields pg.bidsEl = false) : stepBids pg r = r := by
  unfold stepBids
  cases hv : pg.bidsEl with
  | error e => rfl
  | ok t? =>
    cases t? with
    | none => rfl
    | some t =>
      rw [hv] at h
      exact absurd h (by simp [selYields])

theorem stepComments_noYield (pg : CnbPage) (r : Row)
    (h : selYields pg.commentsEl = false) : stepComments pg r = r := by
  unfold stepComments
  cases hv : pg.commentsEl with
  | error e => rfl
  | ok t? =>
    cases t? with
    | none => rfl
    | some t =>
      rw [hv] at h
      exact absurd h (by simp [selYields])

theorem stepAmount_noSel (pg : CnbPage) (r : Row)
    (h : firstNonEmptySel pg.amountSelectors = none) : stepAmount pg r = r := by
  unfold stepAmount
  rw [h]

/-- Skip past a leading digit run. -/
def dropDigits : Str → Str
  | [] => []
  | c :: t => if isDigitC c then dropDigits t else c :: t

/-- Modelled from the spec (claim side only): head match of the
loosely-anchored `"<number> views"` raw-text pattern the spec describes.
No such fallback pass exists in either scraper's source. -/
def viewsNumThen : Str → Option Nat
  | [] => none
  | c :: t =>
    if isDigitC c then
      (if leadsWithCI "views".data (dropWsHead (dropDigits t))
       then some (numRun (digVal c) t) else none)
    else none

/-- Modelled from the spec (claim side only): head match of
`"views: <number>"`. -/
def viewsColonThen (s : Str) : Option Nat :=
  if leadsWithCI "views:".data s then
    (match dropWsHead (s.drop 6) with
     | c :: t => if isDigitC c then some (numRun (digVal c) t) else none
     | [] => none)
  else none

/-- Modelled from the spec (claim side only): the raw-page-text views
fallback — `"<number> views"`, then `"views: <number>"`. -/
def specViewsFallback (raw : Str) : Option Nat :=
  match scanFirst viewsNumThen raw with
  | some n => some n
  | none => scanFirst viewsColonThen raw

/-- A concrete CNB page on which every structured stats selector is empty
while the raw page text contains `"1234 views"`. -/
def c6Page : CnbPage where
  waitBodyOk := true
  titleRes := Except.ok none
  amountSelectors := [Except.ok none, Except.ok none, Except.ok none, Except.ok none]
  dateEl := Except.ok none
  saleTypeEl := Except.ok none
  bidsEl := Except.ok none
  viewsEl := Except.ok none
  commentsEl := Except.ok none
  sellerEl := Except.ok none
  facts := Except.ok []
  rawText := "Seen 1234 views so far".data

/-- Claim C6 is false as stated: on `c6Page` every structured candidate for
the views/bids/comments group is empty and the spec's text-pattern fallback
WOULD match (`1234 views` in the raw text), yet extraction returns the
empty defaults — the scrapers have no raw-text fallback pass. -/
theorem claim6_counterexample :
    specViewsFallback c6Page.rawText = some 1234 ∧
    lookupV "views".data (extract_all_auction_data c6Page "u".data "t".data)
        = some (Val.vstr []) ∧
    lookupV "bids".data (extract_all_auction_data c6Page "u".data "t".data)
        = some (Val.vnat 0) ∧
    lookupV "comments".data (extract_all_auction_data c6Page "u".data "t".data)
        = some (Val.vnat 0) ∧
    lookupV "sale_amount".data (extract_all_auction_data c6Page "u".data "t".data)
        = some (Val.vstr []) := by
  refine ⟨rfl, rfl, rfl, rfl, rfl⟩

/-- Claim C6, amended: when all structured candidates of the
views/bids/comments/sale-amount group yield nothing, extraction leaves the
defaults (`""`, `0`, `0`, `""`) in place whatever the raw page text holds —
there is no text-pattern fallback in the code. -/
theorem claim6_amended (pg : CnbPage) (url now : Str)
    (hamt : firstNonEmptySel pg.amountSelectors = none)
    (hbids : selYields pg.bidsEl = false)
    (hviews : selYields pg.viewsEl = false)
    (hcomments : selYields pg.commentsEl = false) :
    lookupV "views".data (extract_all_auction_data pg url now)
        = some (Val.vstr []) ∧
    lookupV "bids".data (extract_all_auction_data pg url now)
        = some (Val.vnat 0) ∧
    lookupV "comments".data (extract_all_auction_data pg url now)
        = some (Val.vnat 0) ∧
    lookupV "sale_amount".data (extract_all_auction_data pg url now)
        = some (Val.vstr []) := by
  unfold extract_all_auction_data
  by_cases hw : pg.waitBodyOk = true
  · simp only [hw, if_true]
    refine ⟨?_, ?_, ?_, ?_⟩
    · rw [stepMakeInfer_get _ _ (by decide), stepFacts_get _ _ _ (by decide),
        stepSeller_get _ _ _ (by decide), stepComments_get _ _ _ (by decide),
        stepViews_noYield pg _ hviews, stepBids_get _ _ _ (by decide),
        stepDate_get _ _ _ (by decide) (by decide), stepAmount_get _ _ _ (by decide),
        stepYear_get _ _ _ (by decide), stepTitle_get _ _ _ (by decide)]
      rfl
    · rw [stepMakeInfer_get _ _ (by decide), stepFacts_get _ _ _ (by decide),
        stepSeller_get _ _ _ (by decide), stepComments_get _ _ _ (by decide),
        stepViews_get _ _ _ (by decide), stepBids_noYield pg _ hbids,
        stepDate_get _ _ _ (by decide) (by decide), stepAmount_get _ _ _ (by decide),
        stepYear_get _ _ _ (by decide), stepTitle_get _ _ _ (by decide)]
      rfl
    · rw [stepMakeInfer_get _ _ (by decide), stepFacts_get _ _ _ (by decide),
        stepSeller_get _ _ _ (by decide), stepComments_noYield pg _ hcomments,
        stepViews_get _ _ _ (by decide), stepBids_get _ _ _ (by decide),
        stepDate_get _ _ _ (by decide) (by decide), stepAmount_get _ _ _ (by decide),
        stepYear_get _ _ _ (by decide), stepTitle_get _ _ _ (by decide)]
      rfl
    · rw [stepMakeInfer_get _ _ (by decide), stepFacts_get _ _ _ (by decide),
        stepSeller_get _ _ _ (by decide), stepComments_get _ _ _ (by decide),
        stepViews_get _ _ _ (by decide), stepBids_get _ _ _ (by decide),
        stepDate_get _ _ _ (by decide) (by decide), stepAmount_noSel pg _ hamt,
        stepYear_get _ _ _ (by decide), stepTitle_get _ _ _ (by decide)]
      rfl
  · simp only [hw, if_false]
    refine ⟨rfl, rfl, rfl, rfl⟩

/-- Witness for `claim6_amended`: applied to the concrete all-empty page
`c6Page`, whose raw text even contains a fallback match. -/
theorem claim6_amended_witness :
    lookupV "views".data (extract_all_auction_data c6Page "u".data "t".data)
        = some (Val.vstr []) ∧
    lookupV "bids".data (extract_all_auction_data c6Page "u".data "t".data)
        = some (Val.vnat 0) ∧
    lookupV "comments".data (extract_all_auction_data c6Page "u".data "t".data)
        = some (Val.vnat 0) ∧
    lookupV "sale_amount".data (extract_all_auction_data c6Page "u".data "t".data)
        = some (Val.vstr []) :=
  claim6_amended c6Page "u".data "t".data rfl rfl rfl rfl

/-! ### The CNB per-URL loop (`main`, cnb_scraper.py lines 431-479)

The run environment gives, per URL index, the success of each of the 3
navigation attempts and the page state the extractor will see. -/

structure CnbRunEnv where
  existing : List Row
  attempt : Nat → Nat → Bool
  page : Nat → CnbPage
  now : Nat → Str

/-- The retry loop of lines 439-447: the URL is fetched if any of the
three `page.goto` attempts succeeds. -/
def navOk (env : CnbRunEnv) (i : Nat) : Bool :=
  env.attempt i 0 || env.attempt i 1 || env.attempt i 2

/-- Loop state: the in-memory batch, the three counters, and the sequence
of checkpoint Datasets handed to `upload_updated_cnb_csv` mid-run. -/
structure LoopSt where
  rows : List Row
  succ : Nat
  failed : Nat
  skipped : Nat
  ckpts : List (List Row)
deriving Repr

/-- Truthiness of an optional field value. -/
def truthyO (v : Option Val) : Bool :=
  match v with
  | some w => truthyV w
  | none => false

/-- Line 453: `if not data['sale_date'] or data['sale_date'].strip() == ""`. -/
def saleDateMissing (r : Row) : Bool :=
  match lookupV "sale_date".data r with
  | some (.vstr s) => s.isEmpty || (stripWs s).isEmpty
  | _ => true

/-- Line 459: `if data['model'] or data['views'] or data['bids']`. -/
def keepData (r : Row) : Bool :=
  truthyO (lookupV "model".data r) || truthyO (lookupV "views".data r) ||
    truthyO (lookupV "bids".data r)

/-- The `try` body of one loop iteration: navigate with retries, extract,
skip in-progress auctions, keep only meaningful records, count failures. -/
def cnbBody (env : CnbRunEnv) (i : Nat) (url : Str) (st : LoopSt) : LoopSt :=
  if navOk env i then
    (let data := extract_all_auction_data (env.page i) url (env.now i)
     if saleDateMissing data then
       { st with skipped := st.skipped + 1 }
     else if keepData data then
       { st with rows := st.rows ++ [data], succ := st.succ + 1 }
     else
       { st with failed := st.failed + 1 })
  else
    { st with failed := st.failed + 1 }

/-- The `finally` block's checkpoint (lines 475-479): whenever the batch
size is a positive multiple of 50, the concatenation of the existing
Dataset and the batch is uploaded as-is. -/
def ckWrap (env : CnbRunEnv) (s : LoopSt) : LoopSt :=
  if 0 < s.rows.length ∧ s.rows.length % 50 = 0 then
    { s with ckpts := s.ckpts ++ [cnbCheckpointData env.existing s.rows] }
  else s

/-- One iteration of the per-URL loop. -/
def cnbStep (env : CnbRunEnv) (i : Nat) (url : Str) (st : LoopSt) : LoopSt :=
  ckWrap env (cnbBody env i url st)

/-- The loop over the new URLs. -/
def cnbLoop (env : CnbRunEnv) : Nat → List Str → LoopSt → LoopSt
  | _, [], st => st
  | i, url :: rest, st => cnbLoop env (i + 1) rest (cnbStep env i url st)

/-- The state after a whole run over `urls`. -/
def cnbRunSt (env : CnbRunEnv) (urls : List Str) : LoopSt :=
  cnbLoop env 0 urls ⟨[], 0, 0, 0, []⟩

/-- The final durable Dataset of the run (lines 488-521): unchanged when no
new rows were kept, otherwise the concatenate-deduplicate-sort merge. -/
def cnbRunDataset (env : CnbRunEnv) (urls : List Str) : List Row :=
  if (cnbRunSt env urls).rows.isEmpty then env.existing
  else cnbMerge env.existing (cnbRunSt env urls).rows

/-! ### Loop invariants -/

theorem ckWrap_rows (env : CnbRunEnv) (s : LoopSt) : (ckWrap env s).rows = s.rows := by
  unfold ckWrap
  by_cases h : 0 < s.rows.length ∧ s.rows.length % 50 = 0
  · rw [if_pos h]
  · rw [if_neg h]

theorem ckWrap_succ (env : CnbRunEnv) (s : LoopSt) : (ckWrap env s).succ = s.succ := by
  unfold ckWrap
  by_cases h : 0 < s.rows.length ∧ s.rows.length % 50 = 0
  · rw [if_pos h]
  · rw [if_neg h]

theorem ckWrap_failed (env : CnbRunEnv) (s : LoopSt) : (ckWrap env s).failed = s.failed := by
  unfold ckWrap
  by_cases h : 0 < s.rows.length ∧ s.rows.length % 50 = 0
  · rw [if_pos h]
  · rw [if_neg h]

theorem ckWrap_skipped (env : CnbRunEnv) (s : LoopSt) : (ckWrap env s).skipped = s.skipped := by
  unfold ckWrap
  by_cases h : 0 < s.rows.length ∧ s.rows.length % 50 = 0
  · rw [if_pos h]
  · rw [if_neg h]

theorem cnbBody_counts (env : CnbRunEnv) (i : Nat) (url : Str) (st : LoopSt) :
    (cnbBody env i url st).succ + (cnbBody env i url st).failed
        + (cnbBody env i url st).skipped
      = st.succ + st.failed + st.skipped + 1 := by
  unfold cnbBody
  by_cases hn : navOk env i = true
  · rw [if_pos hn]
    by_cases hs : saleDateMissing (extract_all_auction_data (env.page i) url (env.now i)) = true
    · rw [if_pos hs]
      dsimp only
      omega
    · rw [if_neg hs]
      by_cases hk : keepData (extract_all_auction_data (env.page i) url (env.now i)) = true
      · rw [if_pos hk]
        dsimp only
        omega
      · rw [if_neg hk]
        dsimp only
        omega
  · rw [if_neg hn]
    dsimp only
    omega

theorem cnbStep_counts (env : CnbRunEnv) (i : Nat) (url : Str) (st : LoopSt) :
    (cnbStep env i url st).succ + (cnbStep env i url st).failed
        + (cnbStep env i url st).skipped
      = st.succ + st.failed + st.skipped + 1 := by
  unfold cnbStep
  rw [ckWrap_succ, ckWrap_failed, ckWrap_skipped]
  exact cnbBody_counts env i url st

theorem cnbLoop_counts (env : CnbRunEnv) (urls : List Str) :
    ∀ (i : Nat) (st : LoopSt),
      (cnbLoop env i urls st).succ + (cnbLoop env i urls st).failed
          + (cnbLoop env i urls st).skipped
        = st.succ + st.failed + st.skipped + urls.length := by
  induction urls with
  | nil => intro i st; rfl
  | cons u rest ih =>
    intro i st
    rw [cnbLoop, ih (i + 1) (cnbStep env i u st), cnbStep_counts]
    rw [List.length_cons]
    omega

/-- Rows added by one step: either old rows, or the extracted record for
this URL, appended only when navigation succeeded and the record was
kept. -/
theorem cnbStep_rows (env : CnbRunEnv) (i : Nat) (url : Str) (st : LoopSt)
    (r : Row) (hr : r ∈ (cnbStep env i url st).rows) :
    r ∈ st.rows ∨
      (navOk env i = true ∧
        r = extract_all_auction_data (env.page i) url (env.now i) ∧
        keepData r = true) := by
  rw [cnbStep, ckWrap_rows] at hr
  unfold cnbBody at hr
  by_cases hn : navOk env i = true
  · rw [if_pos hn] at hr
    by_cases hs : saleDateMissing (extract_all_auction_data (env.page i) url (env.now i)) = true
    · rw [if_pos hs] at hr
      exact Or.inl hr
    · rw [if_neg hs] at hr
      by_cases hk : keepData (extract_all_auction_data (env.page i) url (env.now i)) = true
      · rw [if_pos hk] at hr
        rcases List.mem_append.mp hr with h1 | h2
        · exact Or.inl h1
        · have h3 := List.mem_singleton.mp h2
          exact Or.inr ⟨hn, h3, h3 ▸ hk⟩
      · rw [if_neg hk] at hr
        exact Or.inl hr
  · rw [if_neg hn] at hr
    exact Or.inl hr

/-- Every row accumulated by the loop either pre-existed or is the record
extracted from some processed URL (with a successful navigation and the
keep test passed). -/
theorem cnbLoop_rows (env : CnbRunEnv) (urls : List Str) :
    ∀ (i : Nat) (st : LoopSt) (r : Row), r ∈ (cnbLoop env i urls st).rows →
      r ∈ st.rows ∨
        ∃ j, ∃ hj : j < urls.length,
          navOk env (i + j) = true ∧
          r = extract_all_auction_data (env.page (i + j)) (urls.get ⟨j, hj⟩)
                (env.now (i + j)) ∧
          keepData r = true := by
  induction urls with
  | nil => intro i st r hr; exact Or.inl hr
  | cons u rest ih =>
    intro i st r hr
    rw [cnbLoop] at hr
    rcases ih (i + 1) (cnbStep env i u st) r hr with h1 | ⟨j, hj, hnav, hrec, hkeep⟩
    · rcases cnbStep_rows env i u st r h1 with h2 | ⟨hnav, hrec, hkeep⟩
      · exact Or.inl h2
      · refine Or.inr ⟨0, by simp, ?_, ?_, hkeep⟩
        · rw [Nat.add_zero]; exact hnav
        · rw [Nat.add_zero]; exact hrec
    · refine Or.inr ⟨j + 1, by simpa using Nat.succ_lt_succ hj, ?_, ?_, hkeep⟩
      · rw [show i + (j + 1) = i + 1 + j by omega]; exact hnav
      · rw [show i + (j + 1) = i + 1 + j by omega]
        simpa using hrec

theorem cnbStep_failed_mono (env : CnbRunEnv) (i : Nat) (url : Str) (st : LoopSt) :
    st.failed ≤ (cnbStep env i url st).failed := by
  rw [cnbStep, ckWrap_failed]
  unfold cnbBody
  by_cases hn : navOk env i = true
  · rw [if_pos hn]
    by_cases hs : saleDateMissing (extract_all_auction_data (env.page i) url (env.now i)) = true
    · rw [if_pos hs]
    · rw [if_neg hs]
      by_cases hk : keepData (extract_all_auction_data (env.page i) url (env.now i)) = true
      · rw [if_pos hk]
      · rw [if_neg hk]
        exact Nat.le_succ _
  · rw [if_neg hn]
    exact Nat.le_succ _

theorem cnbLoop_failed_mono (env : CnbRunEnv) (urls : List Str) :
    ∀ (i : Nat) (st : LoopSt), st.failed ≤ (cnbLoop env i urls st).failed := by
  induction urls with
  | nil => intro i st; exact Nat.le_refl _
  | cons u rest ih =>
    intro i st
    rw [cnbLoop]
    exact Nat.le_trans (cnbStep_failed_mono env i u st) (ih (i + 1) _)

/-- A navigation that fails all three attempts bumps the failure counter. -/
theorem cnbStep_failed_of_navFail (env : CnbRunEnv) (i : Nat) (url : Str)
    (st : LoopSt) (hn : navOk env i = false) :
    (cnbStep env i url st).failed = st.failed + 1 := by
  rw [cnbStep, ckWrap_failed]
  unfold cnbBody
  rw [if_neg (by rw [hn]; exact Bool.false_ne_true)]

/-- If some URL in the list is `D` and every processing of `D` fails
navigation, the loop records at least one failure. -/
theorem cnbLoop_failed_of_mem (env : CnbRunEnv) (urls : List Str) (D : Str) :
    ∀ (i : Nat) (st : LoopSt),
      D ∈ urls →
      (∀ j, ∀ hj : j < urls.length, urls.get ⟨j, hj⟩ = D → navOk env (i + j) = false) →
      st.failed + 1 ≤ (cnbLoop env i urls st).failed := by
  induction urls with
  | nil => intro i st hD _; exact absurd hD (List.not_mem_nil D)
  | cons u rest ih =>
    intro i st hD hfail
    rw [cnbLoop]
    by_cases hu : u = D
    · have hnav : navOk env i = false := by
        have := hfail 0 (by simp) (by simpa using hu)
        rwa [Nat.add_zero] at this
      have hstep := cnbStep_failed_of_navFail env i u st hnav
      have := cnbLoop_failed_mono env rest (i + 1) (cnbStep env i u st)
      omega
    · have hD' : D ∈ rest := by
        rcases List.mem_cons.mp hD with h1 | h2
        · exact absurd h1.symm hu
        · exact h2
      have hfail' : ∀ j, ∀ hj : j < rest.length, rest.get ⟨j, hj⟩ = D →
          navOk env (i + 1 + j) = false := by
        intro j hj hget
        have := hfail (j + 1) (by simpa using Nat.succ_lt_succ hj) (by simpa using hget)
        rwa [show i + (j + 1) = i + 1 + j by omega] at this
      have := ih (i + 1) (cnbStep env i u st) hD' hfail'
      have hmono := cnbStep_failed_mono env i u st
      omega

/-! ### Claims C8, C4, and the C2 counterexample -/

/-- Claim C8: if every fetch of URL `D` fails all 3 navigation attempts,
then no record keyed `D` reaches the final Dataset (given `D` was not
already stored), at least one failure is counted when `D` was scheduled,
and the loop still accounts for every URL — the run completes instead of
aborting. -/
theorem claim8_fetch_failure_isolated (env : CnbRunEnv) (urls : List Str) (D : Str)
    (hex : ∀ r ∈ env.existing, keyCnb r ≠ some (Val.vstr D))
    (hfail : ∀ j, ∀ hj : j < urls.length, urls.get ⟨j, hj⟩ = D →
      env.attempt j 0 = false ∧ env.attempt j 1 = false ∧ env.attempt j 2 = false) :
    (∀ r ∈ cnbRunDataset env urls, keyCnb r ≠ some (Val.vstr D)) ∧
    (D ∈ urls → 1 ≤ (cnbRunSt env urls).failed) ∧
    (cnbRunSt env urls).succ + (cnbRunSt env urls).failed + (cnbRunSt env urls).skipped
      = urls.length := by
  have hnav : ∀ j, ∀ hj : j < urls.length, urls.get ⟨j, hj⟩ = D →
      navOk env (0 + j) = false := by
    intro j hj hget
    obtain ⟨h0, h1, h2⟩ := hfail j hj hget
    rw [Nat.zero_add]
    unfold navOk
    rw [h0, h1, h2]
    rfl
  refine ⟨?_, ?_, ?_⟩
  · intro r hr
    unfold cnbRunDataset at hr
    by_cases hempty : (cnbRunSt env urls).rows.isEmpty = true
    · rw [if_pos hempty] at hr
      exact hex r hr
    · rw [if_neg hempty] at hr
      have hr2 : r ∈ dropDuplicatesFirst (env.existing ++ (cnbRunSt env urls).rows) :=
        ((List.perm_insertionSort yearGe _).mem_iff).mp hr
      have hr3 : r ∈ env.existing ++ (cnbRunSt env urls).rows :=
        mem_dedupFirstGo _ [] r hr2
    
      rcases List.mem_append.mp hr3 with h1 | h2
      · exact hex r h1
      · rcases cnbLoop_rows env urls 0 ⟨[], 0, 0, 0, []⟩ r h2 with h3 | ⟨j, hj, hnavj, hrec, _⟩
        · exact absurd h3 (List.not_mem_nil r)
        · have hkey : keyCnb r = some (Val.vstr (urls.get ⟨j, hj⟩)) := by
            rw [hrec]
            exact extract_url _ _ _
          by_cases hDj : urls.get ⟨j, hj⟩ = D
          · rw [hnav j hj hDj] at hnavj
            exact absurd hnavj Bool.false_ne_true
          · rw [hkey]
            intro hcon
            exact hDj (by
              have := Option.some.inj hcon
              exact Val.vstr.inj this)
  · intro hD
    have := cnbLoop_failed_of_mem env urls D 0 ⟨[], 0, 0, 0, []⟩ hD hnav
    exact this
  · have := cnbLoop_counts env urls 0 ⟨[], 0, 0, 0, []⟩
    simpa using this

/-- A page whose extraction yields a completed, meaningful record (used by
the C8, C4 and C2 witnesses and counterexamples). -/
def happyPage : CnbPage where
  waitBodyOk := true
  titleRes := Except.ok (some "Car".data)
  amountSelectors := []
  dateEl := Except.ok (some "done".data)
  saleTypeEl := Except.ok none
  bidsEl := Except.ok none
  viewsEl := Except.ok none
  commentsEl := Except.ok none
  sellerEl := Except.ok none
  facts := Except.ok []
  rawText := []

/-- A run environment whose every navigation fails. -/
def c8Env : CnbRunEnv where
  existing := []
  attempt := fun _ _ => false
  page := fun _ => happyPage
  now := fun _ => "t".data

/-- Witness for `claim8_fetch_failure_isolated`: one URL `D`, all attempts
failing, empty existing Dataset. -/
theorem claim8_witness :
    (∀ r ∈ cnbRunDataset c8Env ["d".data], keyCnb r ≠ some (Val.vstr "d".data)) ∧
    ("d".data ∈ ["d".data] → 1 ≤ (cnbRunSt c8Env ["d".data]).failed) ∧
    (cnbRunSt c8Env ["d".data]).succ + (cnbRunSt c8Env ["d".data]).failed
        + (cnbRunSt c8Env ["d".data]).skipped = (["d".data] : List Str).length :=
  claim8_fetch_failure_isolated c8Env ["d".data] "d".data
    (fun r hr => absurd hr (List.not_mem_nil r))
    (fun _ _ _ => ⟨rfl, rfl, rfl⟩)

/-- Claim C4, amended: the CNB scraper never buffers or persists a record
whose title/model, views and bids are all empty — every batched row passes
the keep test, and every row of the final Dataset either pre-existed or
passes it.  (The BAT scraper has no such rule: see
`claim4_counterexample`.) -/
theorem claim4_amended (env : CnbRunEnv) (urls : List Str) :
    (∀ r ∈ (cnbRunSt env urls).rows, keepData r = true) ∧
    (∀ r ∈ cnbRunDataset env urls, r ∈ env.existing ∨ keepData r = true) := by
  have hrows : ∀ r ∈ (cnbRunSt env urls).rows, keepData r = true := by
    intro r hr
    rcases cnbLoop_rows env urls 0 ⟨[], 0, 0, 0, []⟩ r hr with h1 | ⟨_, _, _, _, hkeep⟩
    · exact absurd h1 (List.not_mem_nil r)
    · exact hkeep
  refine ⟨hrows, ?_⟩
  intro r hr
  unfold cnbRunDataset at hr
  by_cases hempty : (cnbRunSt env urls).rows.isEmpty = true
  · rw [if_pos hempty] at hr
    exact Or.inl hr
  · rw [if_neg hempty] at hr
    have hr2 : r ∈ env.existing ++ (cnbRunSt env urls).rows :=
      mem_dedupFirstGo _ [] r (((List.perm_insertionSort yearGe _).mem_iff).mp hr)
    rcases List.mem_append.mp hr2 with h1 | h2
    · exact Or.inl h1
    · exact Or.inr (hrows r h2)

/-- A run environment where every navigation succeeds on a page that
yields a kept record. -/
def happyEnv : CnbRunEnv where
  existing := []
  attempt := fun _ _ => true
  page := fun _ => happyPage
  now := fun _ => "t".data

/-- Witness for `claim4_amended`: the one record batched from a successful
single-URL run passes the keep test. -/
theorem claim4_amended_witness :
    keepData (extract_all_auction_data happyPage "u".data "t".data) = true :=
  (claim4_amended happyEnv ["u".data]).1
    (extract_all_auction_data happyPage "u".data "t".data) (by decide)

/-- Distinct one-character filler URLs for the C2 counterexample run. -/
def fillerUrl (n : Nat) : Str := [Char.ofNat (65 + n)]

/-- A discovered URL list in which the same auction URL appears twice —
possible because the sitemap's `<loc>` list is taken as-is — padded to 50
so the mid-run checkpoint fires. -/
def c2Urls : List Str := "u".data :: "u".data :: (List.range 48).map fillerUrl

/-- A run environment that processes `c2Urls` successfully. -/
def c2Env : CnbRunEnv where
  existing := []
  attempt := fun _ _ => true
  page := fun _ => happyPage
  now := fun _ => "t".data

set_option maxRecDepth 4000 in
/-- Claim C2 is false as stated: the mid-run checkpoint write (every 50 new
rows) is a bare concatenation with no deduplication, so the run over
`c2Urls` — where the discovered list repeats the URL `"u"` — hands
`upload_updated_cnb_csv` a Dataset whose `auction_url` keys repeat.  (The
final merge would deduplicate them; the checkpoint Dataset is persisted
as-is.) -/
theorem claim2_counterexample :
    (cnbRunSt c2Env c2Urls).ckpts.length = 1 ∧
      ¬ ((((cnbRunSt c2Env c2Urls).ckpts.headD []).map keyCnb).Nodup) := by
  constructor
  · rfl
  · decide

/-! ### The BAT auction page parser (`parse_auction`, bat_scraper.py lines
584-659) and the scraping loop of `run_scraper` (lines 661-700) -/

/-- Fuel-driven `str.replace(pat, "")`: remove every occurrence of `pat`
left to right; an empty pattern removes nothing (as Python's
`replace("", "")` leaves the string unchanged).  Fuel equal to the input
length suffices since every removal consumes at least one character. -/
def removeAllGo (pat : Str) : Nat → Str → Str
  | 0, s => s
  | _ + 1, [] => []
  | fuel + 1, c :: t =>
    if !pat.isEmpty && leadsWith pat (c :: t) then
      removeAllGo pat fuel ((c :: t).drop pat.length)
    else c :: removeAllGo pat fuel t

/-- `s.replace(pat, "")`. -/
def removeAllSub (pat s : Str) : Str := removeAllGo pat s.length s

/-- `s.split(":", 1)[-1]`: the part after the first colon, or the whole
string when no colon occurs. -/
def afterFirstColon : Str → Str
  | [] => []
  | ':' :: t => t
  | _ :: t => afterFirstColon t

/-- `s.split(":", 1)[-1]` proper. -/
def afterColonOrAll (s : Str) : Str :=
  if s.any (fun c => c == ':') then afterFirstColon s else s

/-- A successfully loaded BAT auction page: each selector's element text,
`none` when the element is absent.  `saleSpan` is the sale-status span's
text with its optional nested `span.date` text; `endSpan` carries the
element text and the `data-ends` attribute; `groupItemsRes` is the result
of `query_selector_all` on the group items (its second, unprotected use in
the source propagates a raise to the caller). -/
structure BatPage where
  saleSpan : Option (Str × Option Str)
  amountEl : Option Str
  commentsEl : Option Str
  bidsEl : Option Str
  viewsEl : Option Str
  watchersEl : Option Str
  endSpan : Option (Str × Option Str)
  titleEl : Option Str
  groupItemsRes : Except Unit (List GroupItem)
  sellerEl : Option Str

/-- `parse_auction`: builds the record dict key by key.  Every populated
selector adds its key; absent elements add nothing (the record's key set
varies).  The final group-items loop re-queries the page without a `try`,
so a raising query propagates (`Except.error`). -/
def parse_auction (pg : BatPage) (url : Str) : Except Unit Row :=
  let r0 : Row := [("auction_url".data, Val.vstr url)]
  let r1 := match pg.saleSpan with
    | none => r0
    | some (text, d?) =>
      let rA := setV r0 "sale_type".data
        (if leadsWith "sold for".data (lowerStr (stripWs text)) then Val.vstr "sold".data
         else Val.vstr "high bid".data)
      match d? with
      | some d => setV rA "sale_date".data
          (Val.vstr (stripWs (removeAllSub "on ".data d)))
      | none => rA
  let r2 := match pg.amountEl with
    | some t => setV r1 "sale_amount".data (Val.vstr (stripWs t))
    | none => r1
  let r3 := match pg.commentsEl with
    | some t => setV r2 "comments".data (Val.vstr (stripWs t))
    | none => r2
  let r4 := match pg.bidsEl with
    | some t => setV r3 "bids".data (Val.vstr (stripWs t))
    | none => r3
  let r5 := match pg.viewsEl with
    | some t => setV r4 "views".data (Val.vstr (stripWs t))
    | none => r4
  let r6 := match pg.watchersEl with
    | some t => setV r5 "watchers".data (Val.vstr (stripWs t))
    | none => r5
  let r7 := match pg.endSpan with
    | some (t, attr?) =>
      setV (setV r6 "end_date".data (Val.vstr (stripWs t))) "end_timestamp".data
        (match attr? with | some a => Val.vstr a | none => Val.vnone)
    | none => r6
  let title := match pg.titleEl with
    | some t => stripWs t
    | none => []
  let r8 := match pg.titleEl with
    | some t => setV r7 "title".data (Val.vstr (stripWs t))
    | none => r7
  let year := match pg.groupItemsRes with
    | .ok gis => batResolveYear url title gis
    | .error _ => batResolveYear url title []
  let r9 := setV r8 "year".data
    (match year with | some y => Val.vnat y | none => Val.vnone)
  let r10 := match pg.sellerEl with
    | some t => setV r9 "seller_type".data (Val.vstr (stripWs (afterColonOrAll t)))
    | none => r9
  match pg.groupItemsRes with
  | .error _ => Except.error ()
  | .ok gis =>
    Except.ok (gis.foldl (fun acc gi =>
      match gi.label with
      | none => acc
      | some lbl =>
        let lblS := stripWs lbl
        let content := stripWs (removeAllSub lblS gi.text)
        if content.isEmpty then acc
        else setV acc (lowerStr lblS) (Val.vstr content)) r10)

/-- The per-URL environment of a BAT run: `none` models the unprotected
`page.goto`/`wait_for_selector` prologue of `parse_auction` raising (the
per-URL `except` in `run_scraper` then skips the URL). -/
structure BatRunEnv where
  pages : Nat → Option BatPage

/-- The scraping loop of `run_scraper` (lines 673-687): every successfully
parsed record is appended to `new_data` unconditionally; any per-URL raise
is caught and skipped. -/
def batCollectNewData (env : BatRunEnv) : Nat → List Str → List Row
  | _, [] => []
  | i, url :: rest =>
    (match env.pages i with
     | none => []
     | some pg =>
       match parse_auction pg url with
       | .ok rec => [rec]
       | .error _ => []) ++ batCollectNewData env (i + 1) rest

/-- A BAT page whose title, views and bids elements are all absent: the
parsed record carries no `title`, `views` or `bids` key at all. -/
def c4Page : BatPage where
  saleSpan := some ("Sold for $100".data, none)
  amountEl := some "$100".data
  commentsEl := none
  bidsEl := none
  viewsEl := none
  watchersEl := none
  endSpan := none
  titleEl := none
  groupItemsRes := Except.ok []
  sellerEl := none

/-- A single-URL BAT run environment serving `c4Page`. -/
def c4Env : BatRunEnv where
  pages := fun _ => some c4Page

/-- Claim C4 is false as stated for the BAT scraper: a record whose
title/model, view count and bid count are all empty (here: the keys are
absent altogether) IS appended to the in-memory batch by `run_scraper` and
IS present in the Dataset persisted by `save_outputs` — the BAT scraper
has no discard rule. -/
theorem claim4_counterexample :
    (batCollectNewData c4Env 0 ["u".data]).length = 1 ∧
    lookupV "title".data ((batCollectNewData c4Env 0 ["u".data]).headD []) = none ∧
    lookupV "views".data ((batCollectNewData c4Env 0 ["u".data]).headD []) = none ∧
    lookupV "bids".data ((batCollectNewData c4Env 0 ["u".data]).headD []) = none ∧
    (batCollectNewData c4Env 0 ["u".data]).headD []
      ∈ batMerge [] (batCollectNewData c4Env 0 ["u".data]) := by
  refine ⟨rfl, rfl, rfl, rfl, ?_⟩
  decide

/-! ### Claim C7: URL discovery

`get_sitemap_urls` (cnb_scraper.py lines 100-169) and
`collect_auction_urls` (bat_scraper.py lines 509-582).  Transport, browser
and parsing are oracles in the environment; `.error ()` models a raise. -/

structure CnbSitemapEnv where
  direct : Except Unit (Nat × Str)
  launchOk : Bool
  attempts : Nat → Except Unit Str
  preText : Str → Option Str
  parseXmlLocs : Str → Except Unit (List Str)
  parseHtmlLocs : Str → Except Unit (List Str)

/-- The browser retry loop (lines 128-140): first of three attempts to
succeed wins; the third failure re-raises into the enclosing handler. -/
def cnbFirstBrowserAttempt (env : CnbSitemapEnv) : Option Str :=
  match env.attempts 0 with
  | .ok x => some x
  | .error _ =>
    match env.attempts 1 with
    | .ok x => some x
    | .error _ =>
      match env.attempts 2 with
      | .ok x => some x
      | .error _ => none

/-- Browser fallback: launch, then the retry loop; any failure is caught
(lines 144-146) yielding no content. -/
def cnbBrowserXml (env : CnbSitemapEnv) : Option Str :=
  if env.launchOk then cnbFirstBrowserAttempt env else none

/-- Lines 104-146: direct fetch; non-200 raises into the same handler that
catches transport errors, both falling back to the browser. -/
def cnbObtainXml (env : CnbSitemapEnv) : Option Str :=
  match env.direct with
  | .ok (status, body) => if status == 200 then some body else cnbBrowserXml env
  | .error _ => cnbBrowserXml env

/-- The marker of the WebKit XML viewer wrapper (line 149). -/
def webkitMarker : Str := "<pre id=\"webkit-xml-viewer-source-xml\"".data

/-- Lines 148-153: unwrap the `<pre>` body when the browser returned the
viewer page. -/
def cnbUnwrap (env : CnbSitemapEnv) (xml : Str) : Str :=
  if hasSub webkitMarker xml then
    (match env.preText xml with
     | some t => t
     | none => xml)
  else xml

/-- Lines 155-169: XML parse, HTML reparse when no URLs, `/auctions/`
filter; a raise anywhere in the block returns the empty list. -/
def cnbParseUrls (env : CnbSitemapEnv) (xml : Str) : List Str :=
  match env.parseXmlLocs xml with
  | .error _ => []
  | .ok locs =>
    let urls := locs.filter (fun l => hasSub "/auctions/".data l)
    if urls.isEmpty then
      (match env.parseHtmlLocs xml with
       | .error _ => []
       | .ok locs2 => locs2.filter (fun l => hasSub "/auctions/".data l))
    else urls

/-- `get_sitemap_urls`: every raise is caught, so the result is always
`.ok`; with no content obtained the list is empty. -/
def get_sitemap_urls (env : CnbSitemapEnv) : Except Unit (List Str) :=
  match cnbObtainXml env with
  | none => Except.ok []
  | some xml => Except.ok (cnbParseUrls env (cnbUnwrap env xml))

/-- The BAT results-page environment: the unprotected prologue
(`page.goto`, `wait_for_selector`, lines 511-512), then per-query card
lists (href attributes), load-more button states (absent / hidden /
clickable) and wait outcomes. -/
structure BatCollectEnv where
  gotoOk : Bool
  waitTileOk : Bool
  cards : Nat → List (Option Str)
  btn : Nat → Option Bool
  waitFn : Nat → Bool

/-- Loop state of `collect_auction_urls`: collected URLs, `loaded`,
`consecutive_failures`, and the positions in the card/button/wait oracle
streams. -/
structure BatCollectSt where
  urls : List Str
  loaded : Nat
  consec : Nat
  qi : Nat
  bi : Nat
  wi : Nat

/-- `href if href.startswith("http") else BASE_URL + href` (line 535). -/
def normHref (h : Str) : Str :=
  if leadsWith "http".data h then h else "https://bringatrailer.com".data ++ h

/-- Lines 532-535: keep the truthy hrefs of a card slice, normalised. -/
def hrefsOf (cs : List (Option Str)) : List Str :=
  cs.filterMap (fun h? =>
    match h? with
    | some h => if h.isEmpty then none else some (normHref h)
    | none => none)

/-- The `while loaded < MAX_AUCTIONS` loop of lines 517-579, fuel-bounded:
the source loop does not terminate on every adversarial page (card counts
may oscillate), so the model carries explicit fuel; the claims proved below
do not depend on the loop's value. -/
def batCollectLoop (env : BatCollectEnv) : Nat → BatCollectSt → List Str
  | 0, st => st.urls
  | fuel + 1, st =>
    if 500 ≤ st.loaded then st.urls
    else
      let cs := env.cards st.qi
      let current := cs.length
      if current = st.loaded ∧ 3 ≤ st.consec + 1 then st.urls
      else
        let consec1 := if current = st.loaded then st.consec + 1 else 0
        let urls1 := st.urls ++ hrefsOf ((cs.drop st.loaded).take (min current 500 - st.loaded))
        if 500 ≤ current then urls1
        else
          match env.btn st.bi with
          | none => urls1
          | some false => urls1
          | some true =>
            if env.waitFn st.wi then
              batCollectLoop env fuel
                ⟨urls1, current, consec1, st.qi + 1, st.bi + 1, st.wi + 1⟩
            else
              if current < (env.cards (st.qi + 1)).length then
                batCollectLoop env fuel
                  ⟨urls1, current, consec1, st.qi + 2, st.bi + 1, st.wi + 1⟩
              else urls1

/-- `collect_auction_urls`: the initial navigation and tile wait are NOT
protected by any handler — their failure propagates to the caller. -/
def collect_auction_urls (env : BatCollectEnv) : Except Unit (List Str) :=
  if env.gotoOk then
    (if env.waitTileOk then
      Except.ok (batCollectLoop env 2000 ⟨[], 0, 0, 0, 0, 0⟩)
     else Except.error ())
  else Except.error ()

/-- A BAT environment whose initial results-page navigation times out. -/
def c7BatEnv : BatCollectEnv where
  gotoOk := false
  waitTileOk := true
  cards := fun _ => []
  btn := fun _ => none
  waitFn := fun _ => false

/-- Claim C7 is false as stated for the BAT scraper: when the initial
navigation to the results page fails, `collect_auction_urls` raises to its
caller instead of returning an empty collection — the fail-soft behaviour
holds only for the CNB scraper's `get_sitemap_urls`. -/
theorem claim7_counterexample :
    collect_auction_urls c7BatEnv = Except.error () := rfl

/-- Claim C7, amended: the CNB `get_sitemap_urls` fails soft — it always
returns a list, and returns the empty list after the direct fetch and all
three browser attempts fail — while the BAT `collect_auction_urls`
propagates a failure of its unprotected prologue (`page.goto`,
`wait_for_selector`) to its caller (`run_scraper` catches it and proceeds
with no URLs). -/
theorem claim7_amended :
    (∀ env : CnbSitemapEnv, ∃ l, get_sitemap_urls env = Except.ok l) ∧
    (∀ env : CnbSitemapEnv, env.direct = Except.error () →
      (∀ k, k < 3 → env.attempts k = Except.error ()) →
      get_sitemap_urls env = Except.ok []) ∧
    (∀ env : BatCollectEnv, env.gotoOk = false →
      collect_auction_urls env = Except.error ()) ∧
    (∀ env : BatCollectEnv, env.gotoOk = true → env.waitTileOk = false →
      collect_auction_urls env = Except.error ()) := by
  refine ⟨?_, ?_, ?_, ?_⟩
  · intro env
    unfold get_sitemap_urls
    cases cnbObtainXml env with
    | none => exact ⟨[], rfl⟩
    | some xml => exact ⟨_, rfl⟩
  · intro env hd hb
    unfold get_sitemap_urls cnbObtainXml
    rw [hd]
    unfold cnbBrowserXml cnbFirstBrowserAttempt
    rw [hb 0 (by omega), hb 1 (by omega), hb 2 (by omega)]
    by_cases hl : env.launchOk = true
    · rw [if_pos hl]
    · rw [if_neg hl]
  · intro env hg
    unfold collect_auction_urls
    rw [if_neg (by rw [hg]; exact Bool.false_ne_true)]
  · intro env hg hw
    unfold collect_auction_urls
    rw [if_pos hg, if_neg (by rw [hw]; exact Bool.false_ne_true)]

/-- A CNB environment whose direct fetch and all browser attempts fail. -/
def c7CnbEnv : CnbSitemapEnv where
  direct := Except.error ()
  launchOk := true
  attempts := fun _ => Except.error ()
  preText := fun _ => none
  parseXmlLocs := fun _ => Except.ok []
  parseHtmlLocs := fun _ => Except.ok []

/-- Witness for `claim7_amended`: the CNB discovery returns `.ok []` after
all methods fail on `c7CnbEnv`, and the BAT collector raises on a
tile-wait failure. -/
theorem claim7_amended_witness :
    get_sitemap_urls c7CnbEnv = Except.ok [] ∧
    collect_auction_urls
        ({ c7BatEnv with gotoOk := true, waitTileOk := false } : BatCollectEnv)
      = Except.error () :=
  ⟨claim7_amended.2.1 c7CnbEnv rfl (fun _ _ => rfl),
   claim7_amended.2.2.2 _ rfl rfl⟩
